import Mathlib

/-!
# brev-cli: reconciliation of the SSH client configuration (package `brev_ssh`)

A shallow embedding of `pkg/brev_ssh/ssh.go`, of the file helpers of
`pkg/files/files.go` it calls, and of `AuthHTTPStore.GetWorkspaces` of
`pkg/store/workspace.go`, followed by theorems about them.

Conventions of the embedding.

* Go strings are Lean `String`s; where the code counts bytes (file offsets) the
  model counts characters, which is the same thing for ASCII text.
* A Go call that can panic or return an error returns `Result α`
  (`Except Failure α`).
* `files.GetSSHPrivateKeyFilePath()` depends on the home directory of the user
  and is passed around as the parameter `keyPath`.
* The types `Pattern`, `Node`, `Host`, `Config` and the functions on them
  (`Host.String`, `Host.Matches`, `Config.Get`, `Decode`) belong to the
  third-party library `github.com/kevinburke/ssh_config` (version 1.1) that
  `ssh.go` imports. They are modelled here after the library's behaviour; every
  such definition says so in its doc comment. The universally quantified
  theorems below range over all `Config` values and do not go through `Decode`;
  `Decode` is only evaluated, on short well-formed texts.
* A file is its content; a handle is an offset into it. `os.O_RDWR` without
  `os.O_APPEND` gives a handle at offset 0, and `Write` replaces the bytes at the
  offset of the handle.
* File operations themselves never fail in the model (no I/O errors).
-/

namespace BrevSSH

/-! ## Failures and Go standard-library helpers -/

/-- The ways a call can fail: a Go runtime panic, or an `error` value returned. -/
inductive Failure where
  | panic (msg : String)
  | error (msg : String)
  deriving DecidableEq, Repr

/-- Result of a fallible call. -/
abbrev Result (α : Type) := Except Failure α

deriving instance DecidableEq for Except

/-- Go `strings.Split(s, sep)` for a one-character separator, on character lists:
the pieces between the separators, `[""]` for the empty string. -/
def splitChars (sep : Char) : List Char → List (List Char)
  | [] => [[]]
  | c :: cs =>
    match splitChars sep cs with
    | [] => [[]]
    | w :: ws => if c = sep then [] :: w :: ws else (c :: w) :: ws

/-- Go `strings.Split(s, sep)` for a one-character separator. -/
def stringsSplit (s : String) (sep : Char) : List String :=
  (splitChars sep s.data).map String.mk

/-- Go `strings.Repeat(" ", n)`. -/
def spaces (n : Nat) : String := String.mk (List.replicate n ' ')

/-- Go `fmt.Sprint(port)` and `strconv.Itoa(port)` for a non-negative `int`:
the decimal numeral. -/
def Sprint (port : Nat) : String := Nat.repr port

/-- Go `strings.ToLower` on ASCII text. -/
def toLower (s : String) : String := String.mk (s.data.map Char.toLower)

/-! ## The data model of the `ssh_config` library -/

/-- Library type `ssh_config.Pattern`: one pattern of a `Host` line. `str` is the
pattern text with a leading `!` removed, `not` records that the `!` was there.
The compiled `regex` field of the library is determined by `str` and is modelled
by `Pattern.regexMatch`. -/
structure Pattern where
  str : String
  not : Bool
  deriving DecidableEq, Repr

/-- Library interface `ssh_config.Node`, the lines under a `Host` line: a
key/value directive (`*ssh_config.KV`) or a blank/comment line
(`*ssh_config.Empty`). `Include` nodes are not modelled. -/
inductive Node where
  | KV (Key Value Comment : String) (hasEquals : Bool) (leadingSpace : Nat)
  | Empty (Comment : String) (leadingSpace : Nat)
  deriving DecidableEq, Repr

/-- Library type `ssh_config.Host`: a `Host` line and the lines that follow it.
The first block of every decoded file is `implicit` (it stands for the lines
before the first `Host` line and prints no `Host` line). -/
structure Host where
  Patterns : List Pattern
  Nodes : List Node
  EOLComment : String
  hasEquals : Bool
  leadingSpace : Nat
  implicit : Bool
  deriving DecidableEq, Repr

/-- Library type `ssh_config.Config`: the blocks of a file, in file order. -/
structure Config where
  Hosts : List Host
  deriving DecidableEq, Repr

/-- After `.*` the rest of the pattern may start at any later position; `.` does
not match a newline. -/
def starMatch (rest : List Char → Bool) : List Char → Bool
  | [] => rest []
  | c :: cs => rest (c :: cs) || (c != '\n' && starMatch rest cs)

/-- Library `NewPattern` compiles a pattern to the anchored regular expression in
which `*` is `.*`, `?` is `.?` and every other character stands for itself;
this is that expression's `MatchString`. -/
def globMatch : List Char → List Char → Bool
  | [], s => s.isEmpty
  | p :: ps, s =>
    if p = '*' then starMatch (globMatch ps) s
    else if p = '?' then
      globMatch ps s ||
        (match s with
         | [] => false
         | c :: cs => c != '\n' && globMatch ps cs)
    else
      match s with
      | [] => false
      | c :: cs => c == p && globMatch ps cs

/-- Library `p.regex.MatchString(alias)`. -/
def Pattern.regexMatch (p : Pattern) (aliasStr : String) : Bool :=
  globMatch p.str.data aliasStr.data

/-- Library `(*Host).Matches`: walk the patterns; a negated pattern whose
expression matches makes the whole block not match, otherwise the block matches
when some pattern matched. -/
def matchesLoop (aliasStr : String) : List Pattern → Bool → Bool
  | [], found => found
  | p :: ps, found =>
    if p.regexMatch aliasStr then
      if p.not then false else matchesLoop aliasStr ps true
    else matchesLoop aliasStr ps found

/-- Library `(*Host).Matches(alias)`. -/
def Host.Matches (h : Host) (aliasStr : String) : Bool :=
  matchesLoop aliasStr h.Patterns false

/-- Library `(*KV).String` and `(*Empty).String`: a line as it is printed. -/
def Node.String : Node → String
  | .KV key value comment hasEquals leadingSpace =>
    let line := spaces leadingSpace ++ key ++ (if hasEquals then " = " else " ") ++ value
    if comment = "" then line else line ++ " #" ++ comment
  | .Empty comment leadingSpace =>
    if comment = "" then "" else spaces leadingSpace ++ "#" ++ comment

/-- Library `(*Host).String`: the `Host` line (unless the block is implicit)
followed by every node on its own line. -/
def Host.String (h : Host) : String :=
  (if h.implicit then ""
   else
     spaces h.leadingSpace ++ "Host" ++ (if h.hasEquals then " = " else " ") ++
       " ".intercalate (h.Patterns.map Pattern.str) ++
       (if h.EOLComment = "" then "" else " #" ++ h.EOLComment) ++ "\n") ++
  String.join (h.Nodes.map fun n => n.String ++ "\n")

/-! ## `pkg/brev_ssh/ssh.go`: detection of managed blocks -/

/-- Go `checkIfBrevHost`: some `KV` node has key `IdentityFile` and the private
key path as its value. -/
def checkIfBrevHost (keyPath : String) (host : Host) : Bool :=
  host.Nodes.any fun node =>
    match node with
    | .KV key value _ _ _ => key = "IdentityFile" && keyPath = value
    | .Empty _ _ => false

/-- Go `hostnameFromString`. The `switch` returns the argument for `"\n"`; the
case `""` has an empty body, so for the empty string control leaves the switch
and reaches the last line like any other input. That line takes index 1 of the
first line split on spaces and panics when there is no such element. -/
def hostnameFromString (hoststring : String) : Result String :=
  if hoststring = "\n" then .ok hoststring
  else
    match stringsSplit ((stringsSplit hoststring '\n').headD "") ' ' with
    | _ :: x :: _ => .ok x
    | _ => .error (.panic "index out of range [1]")

/-- Loop of Go `GetBrevHostValues`: for every block, first compute
`hostnameFromString` of its text (a panic there ends the call), then keep the
name when the block is managed. -/
def GetBrevHostValuesLoop (keyPath : String) : List Host → List String → Result (List String)
  | [], brevHosts => .ok brevHosts
  | host :: rest, brevHosts =>
    match hostnameFromString host.String with
    | .error e => .error e
    | .ok hostname =>
      GetBrevHostValuesLoop keyPath rest
        (if checkIfBrevHost keyPath host then brevHosts ++ [hostname] else brevHosts)

/-- Go `GetBrevHostValues`. -/
def GetBrevHostValues (keyPath : String) (cfg : Config) : Result (List String) :=
  GetBrevHostValuesLoop keyPath cfg.Hosts []

/-! ## Library: looking a key up, and decoding a file -/

/-- Library `Config.Get`, the scan of the nodes of one matching block: `none` when
the key is not in the block. A `Match` key makes the library panic. -/
def getInNodes (lowerKey : String) : List Node → Option (Result String)
  | [] => none
  | .Empty _ _ :: ns => getInNodes lowerKey ns
  | .KV key value _ _ _ :: ns =>
    if toLower key = "match" then some (.error (.panic "can't handle Match directives"))
    else if toLower key = lowerKey then some (.ok value)
    else getInNodes lowerKey ns

/-- Library `Config.Get`, the scan of the blocks: the first value found in a block
that matches the alias, the empty string (and no error) when there is none. -/
def getInHosts (aliasStr lowerKey : String) : List Host → Result String
  | [] => .ok ""
  | h :: hs =>
    if h.Matches aliasStr then
      match getInNodes lowerKey h.Nodes with
      | some r => r
      | none => getInHosts aliasStr lowerKey hs
    else getInHosts aliasStr lowerKey hs

/-- Library `(*Config).Get(alias, key)`; the key is compared case-insensitively. -/
def Config.Get (c : Config) (aliasStr key : String) : Result String :=
  getInHosts aliasStr (toLower key) c.Hosts

/-- Library lexer: blanks are spaces and tabs. -/
def isSpace (c : Char) : Bool := c == ' ' || c == '\t'

/-- Library lexer: skip the blanks at the start of a line. -/
def dropSpaces : List Char → List Char
  | [] => []
  | c :: cs => if isSpace c then dropSpaces cs else c :: cs

/-- Library lexer: the number of blanks at the start of a line (the column of the
first token, minus one). -/
def countSpaces : List Char → Nat
  | [] => 0
  | c :: cs => if isSpace c then countSpaces cs + 1 else 0

/-- Library lexer: a key runs up to the first blank or `=`. -/
def lexKey : List Char → List Char × List Char
  | [] => ([], [])
  | c :: cs =>
    if isSpace c || c == '=' then ([], c :: cs)
    else ((c :: (lexKey cs).1), (lexKey cs).2)

/-- Library lexer: after the key come blanks and possibly one `=` with blanks
after it. -/
def lexEquals (rest : List Char) : Bool × List Char :=
  match dropSpaces rest with
  | [] => (false, [])
  | c :: r => if c = '=' then (true, dropSpaces r) else (false, c :: r)

/-- Library lexer: the value runs to the end of the line or to a `#`, which starts
a comment. -/
def lexRvalue : List Char → List Char × List Char
  | [] => ([], [])
  | c :: cs =>
    if c = '#' then ([], cs)
    else ((c :: (lexRvalue cs).1), (lexRvalue cs).2)

/-- The three kinds of line of a configuration file. -/
inductive Line where
  | blank
  | comment (text : String) (leadingSpace : Nat)
  | kv (key value comment : String) (hasEquals : Bool) (leadingSpace : Nat)
  deriving DecidableEq, Repr

/-- Library lexer on one line (without its newline). -/
def lexLine (l : List Char) : Line :=
  match dropSpaces l with
  | [] => .blank
  | c :: rest =>
    if c = '#' then .comment (String.mk rest) (countSpaces l)
    else
      let k := lexKey (c :: rest)
      let e := lexEquals k.2
      let v := lexRvalue e.2
      .kv (String.mk k.1) (String.mk v.1) (String.mk v.2) e.1 (countSpaces l)

/-- Library `NewPattern` on each non-empty piece of the value of a `Host` line:
a leading `!` is removed from the text and recorded as negation. -/
def parsePatterns (value : String) : List Pattern :=
  ((stringsSplit value ' ').filter fun s => s != "").map fun s =>
    match s.data with
    | '!' :: r => { str := String.mk r, not := true }
    | _ => { str := s, not := false }

/-- Library parser, one line: blank and comment lines and directives are added to
the current block, a `Host` line closes it and opens a new one, a `Match` line is
an error. `Include` lines, which make the library read other files, are outside
the model and reported as an error too. -/
def parseLine (l : List Char) (done : List Host) (cur : Host) : Result (List Host × Host) :=
  match lexLine l with
  | .blank => .ok (done, { cur with Nodes := cur.Nodes ++ [.Empty "" 0] })
  | .comment text n => .ok (done, { cur with Nodes := cur.Nodes ++ [.Empty text n] })
  | .kv key value comment hasEquals n =>
    if toLower key = "match" then
      .error (.error "ssh_config: Match directive parsing is unsupported")
    else if toLower key = "host" then
      .ok (done ++ [cur],
        { Patterns := parsePatterns value, Nodes := [], EOLComment := comment,
          hasEquals := hasEquals, leadingSpace := 0, implicit := false })
    else if toLower key = "include" then
      .error (.error "Include directives are not modelled")
    else .ok (done, { cur with Nodes := cur.Nodes ++ [.KV key value comment hasEquals n] })

/-- Library parser over the pieces of the text between newlines; the piece after
the last newline is a line only when it is not blank. -/
def parseSegments : List (List Char) → List Host → Host → Result (List Host)
  | [], done, cur => .ok (done ++ [cur])
  | l :: rest, done, cur =>
    if rest.isEmpty && (dropSpaces l).isEmpty then .ok (done ++ [cur])
    else
      match parseLine l done cur with
      | .error e => .error e
      | .ok (done1, cur1) => parseSegments rest done1 cur1

/-- Library `ssh_config.Decode`: the blocks of a text. The result always starts
with the implicit block (pattern `*`), which holds the lines before the first
`Host` line. Carriage returns get no special treatment in the model. -/
def Decode (text : String) : Result Config :=
  match parseSegments (splitChars '\n' text.data) []
      { Patterns := [{ str := "*", not := false }], Nodes := [], EOLComment := "",
        hasEquals := false, leadingSpace := 0, implicit := true } with
  | .error e => .error e
  | .ok hosts => .ok { Hosts := hosts }

/-! ## `pkg/files/files.go`: the files the reconciliation touches -/

/-- The part of the file system the pass reads and writes: the user's SSH
configuration (`~/.ssh/config`) and the private key file (`~/.brev/brev.pem`);
`none` is a file that does not exist. -/
structure FS where
  sshConfig : Option String
  privateKeyFile : Option String
  deriving DecidableEq, Repr

/-- An open `afero.File` on the SSH configuration: its current offset. -/
structure File where
  offset : Nat
  deriving DecidableEq, Repr

/-- Go `files.GetOrCreateSSHConfigFile`: an existing file is opened with
`fs.OpenFile(path, os.O_RDWR, 0o644)`, a missing one is created empty. Neither
branch passes `os.O_APPEND` or seeks, so the handle starts at offset 0. -/
def GetOrCreateSSHConfigFile (fs : FS) : FS × File :=
  ({ fs with sshConfig := some (fs.sshConfig.getD "") }, { offset := 0 })

/-- Go `file.Write(data)`: the data replaces what the file holds from the offset
of the handle on; the file grows when the data reaches past its end, and what
lies behind the written range stays. (Every handle of the pass is written once,
at offset 0; an offset past the end of the file does not arise.) -/
def File.Write (fs : FS) (file : File) (data : String) : FS × File :=
  let old := (fs.sshConfig.getD "").data
  let content := old.take file.offset ++ data.data ++ old.drop (file.offset + data.length)
  ({ fs with sshConfig := some (String.mk content) }, { offset := file.offset + data.length })

/-- Go `files.OverwriteString`: the file is created or truncated and then holds
exactly `data`. -/
def OverwriteString (fs : FS) (data : String) : FS :=
  { fs with sshConfig := some data }

/-- Go `files.WriteSSHPrivateKey`. -/
def WriteSSHPrivateKey (fs : FS) (data : String) : FS :=
  { fs with privateKeyFile := some data }

/-- Go `GetSSHConfig`: open (or create) the file and decode all of it. -/
def GetSSHConfig (fs : FS) : FS × Result Config :=
  let opened := GetOrCreateSSHConfigFile fs
  (opened.1, Decode (opened.1.sshConfig.getD ""))

/-! ## `pkg/brev_ssh/ssh.go`: rendering, port allocation, creation, pruning -/

/-- Go `workspaceSSHConfig`, the record handed to the template. -/
structure workspaceSSHConfig where
  Host : String
  Hostname : String
  User : String
  IdentityFile : String
  Port : String
  deriving DecidableEq, Repr

/-- Go `workspaceSSHConfigTemplate` executed on a record (`text/template`, which
inserts field values verbatim): a newline, the `Host` line, and four lines
indented by a tab and a space. The `User` line is literal text of the template. -/
def executeTemplate (c : workspaceSSHConfig) : String :=
  "\nHost " ++ c.Host ++ "\n\t Hostname " ++ c.Hostname ++ "\n\t IdentityFile " ++
    c.IdentityFile ++ "\n\t User brev\n\t Port " ++ c.Port ++ "\n"

/-- Go `appendBrevEntry`, the record it builds. -/
def brevEntry (keyPath workspaceName port : String) : workspaceSSHConfig :=
  { Host := workspaceName, Hostname := "0.0.0.0", User := "brev",
    IdentityFile := keyPath, Port := port }

/-- Go `appendBrevEntry`: execute the template into a buffer and `Write` the
buffer to the given handle. -/
def appendBrevEntry (keyPath : String) (fs : FS) (file : File) (workspaceName port : String) :
    FS × File :=
  File.Write fs file (executeTemplate (brevEntry keyPath workspaceName port))

/-- Go `GetBrevPorts`: the set (the keys of a `map[string]bool`, kept as a list)
of the `Port` values that `cfg.Get` finds for the given names. -/
def GetBrevPorts (cfg : Config) : List String → Result (List String)
  | [] => .ok []
  | name :: rest =>
    match cfg.Get name "Port" with
    | .error e => .error e
    | .ok port =>
      match GetBrevPorts cfg rest with
      | .error e => .error e
      | .ok portSet => .ok (port :: portSet)

/-- Go `port := 2222; for ports[fmt.Sprint(port)] { port++ }` with a bound on the
number of iterations: `none` when the bound is used up before the loop exits.
The port is a natural number: a 64-bit `int` cannot overflow here, since the
loop leaves at the first numeral that is not a key of the map. -/
def allocLoop (ports : List String) : Nat → Nat → Option Nat
  | 0, _ => none
  | fuel + 1, port =>
    if ports.contains (Sprint port) then allocLoop ports fuel (port + 1) else some port

/-- The allocation loop of `CreateBrevSSHConfigEntries` started at 2222, with one
more iteration allowed than there are used ports. -/
def allocatePort (ports : List String) : Option Nat :=
  allocLoop ports (ports.length + 1) 2222

/-- Go `m[key] = value` on a `map[string]string` kept as an association list. -/
def mapInsert (m : List (String × String)) (key value : String) : List (String × String) :=
  if m.any (fun kv => kv.1 == key) then
    m.map fun kv => if kv.1 == key then (key, value) else kv
  else m ++ [(key, value)]

/-- Go `CreateBrevSSHConfigEntries`, the loop over the active identifiers.
`brevHostValues` is the list computed once before the loop from the
configuration passed in; inside the loop only `cfg` is read again from disk.
The `none` branch of the port search is never taken (`allocatePort_isSome`). -/
def createLoop (keyPath : String) (brevHostValues : List String) :
    List String → FS → List (String × String) → FS × Result (List (String × String))
  | [], fs, identifierPortMapping => (fs, .ok identifierPortMapping)
  | workspaceName :: rest, fs, identifierPortMapping =>
    if brevHostValues.contains workspaceName then
      createLoop keyPath brevHostValues rest fs identifierPortMapping
    else
      match GetSSHConfig fs with
      | (fs1, .error e) => (fs1, .error e)
      | (fs1, .ok cfg) =>
        match GetBrevPorts cfg brevHostValues with
        | .error e => (fs1, .error e)
        | .ok ports =>
          match allocatePort ports with
          | none => (fs1, .error (.error "port search did not finish"))
          | some port =>
            let opened := GetOrCreateSSHConfigFile fs1
            let written := appendBrevEntry keyPath opened.1 opened.2 workspaceName (Sprint port)
            createLoop keyPath brevHostValues rest written.1
              (mapInsert identifierPortMapping workspaceName (Sprint port))

/-- Go `CreateBrevSSHConfigEntries`: the new file system and the mapping from
identifier to port, or the failure that ended the call. -/
def CreateBrevSSHConfigEntries (keyPath : String) (fs : FS) (cfg : Config)
    (activeWorkspacesIdentifiers : List String) : FS × Result (List (String × String)) :=
  match GetBrevHostValues keyPath cfg with
  | .error e => (fs, .error e)
  | .ok brevHostValues => createLoop keyPath brevHostValues activeWorkspacesIdentifiers fs []

/-- Go `PruneInactiveWorkspaces`: the concatenated text of the blocks that are not
managed or that match one of the active names. -/
def PruneInactiveWorkspaces (keyPath : String) (cfg : Config)
    (activeWorkspacesNames : List String) : String :=
  cfg.Hosts.foldl
    (fun newConfig host =>
      if checkIfBrevHost keyPath host then
        if activeWorkspacesNames.any fun name => host.Matches name then
          newConfig ++ host.String
        else newConfig
      else newConfig ++ host.String)
    ""

/-- The fields of `brev_api.Workspace` that the pass reads. -/
structure Workspace where
  ID : String
  DNS : String
  deriving DecidableEq, Repr

/-- Go `DefaultSSHConfigurer.Config`, one reconciliation pass. `activeOrg` is the
outcome of `brev_api.GetActiveOrgContext` (the organisation ID) and
`GetMyWorkspaces` the inventory collaborator. The result is the file system
after the call and either the mapping stored in the configurer or the failure. -/
def DefaultSSHConfigurer.Config (keyPath privateKey : String) (activeOrg : Result String)
    (GetMyWorkspaces : String → Result (List Workspace)) (fs : FS) :
    FS × Result (List (String × String)) :=
  let fs0 := WriteSSHPrivateKey fs privateKey
  match activeOrg with
  | .error e => (fs0, .error e)
  | .ok orgID =>
    match GetMyWorkspaces orgID with
    | .error e => (fs0, .error e)
    | .ok workspaces =>
      let activeWorkspacesDNS := workspaces.map fun w => w.DNS
      match GetSSHConfig fs0 with
      | (fs1, .error e) => (fs1, .error e)
      | (fs1, .ok cfg) =>
        match CreateBrevSSHConfigEntries keyPath fs1 cfg activeWorkspacesDNS with
        | (fs2, .error e) => (fs2, .error e)
        | (fs2, .ok dnsPortMapping) =>
          match GetSSHConfig fs2 with
          | (fs3, .error e) => (fs3, .error e)
          | (fs3, .ok cfg2) =>
            (OverwriteString fs3 (PruneInactiveWorkspaces keyPath cfg2 activeWorkspacesDNS),
             .ok dnsPortMapping)


/-! ## Auxiliary definitions for the statements below -/

/-- The blocks `PruneInactiveWorkspaces` emits: the foreign ones and the managed
ones that match an active name. -/
def keeps (keyPath : String) (active : List String) (host : Host) : Bool :=
  !checkIfBrevHost keyPath host || active.any fun name => host.Matches name

/-- A private-key path for the concrete scenarios. -/
def exampleKeyPath : String := "/home/u/.brev/brev.pem"

/-- An inventory collaborator that answers with the given identifiers. -/
def inventory (dns : List String) : String → Result (List Workspace) :=
  fun _ => .ok (dns.map fun d => { ID := d, DNS := d })

/-- A configuration file that holds one blank line. -/
def blankConfigFS : FS := { sshConfig := some "\n", privateKeyFile := none }

/-- The implicit block of a file that starts with a blank line. -/
def blankImplicitHost : Host :=
  { Patterns := [{ str := "*", not := false }], Nodes := [.Empty "" 0],
    EOLComment := "", hasEquals := false, leadingSpace := 0, implicit := true }

/-- The configuration decoded from one blank line: the implicit block with one
empty node. -/
def blankConfig : Config := { Hosts := [blankImplicitHost] }

/-- A configuration file that holds one comment line. -/
def commentConfigFS : FS := { sshConfig := some "# local hosts\n", privateKeyFile := none }

/-- The configuration decoded from `commentConfigFS`. -/
def commentConfig : Config :=
  { Hosts := [{ Patterns := [{ str := "*", not := false }], Nodes := [.Empty " local hosts" 0],
                EOLComment := "", hasEquals := false, leadingSpace := 0, implicit := true }] }

/-- No configuration file yet. -/
def freshFS : FS := { sshConfig := none, privateKeyFile := none }

/-- The scenario of the specification: a foreign block `myserver` and a stale
managed block `old-ws` on port 2222. -/
def scenarioText : String :=
  "Host myserver\n\tHostname example.com\n\tUser alice\n" ++
  "Host old-ws\n\t Hostname 0.0.0.0\n\t IdentityFile /home/u/.brev/brev.pem\n" ++
  "\t User brev\n\t Port 2222\n"

/-- A managed block whose `Host` line is `Host ws-* !ws-1`. -/
def negatedHost : Host :=
  { Patterns := [{ str := "ws-*", not := false }, { str := "ws-1", not := true }],
    Nodes := [.KV "IdentityFile" "/home/u/.brev/brev.pem" "" false 2,
              .KV "Port" "2222" "" false 2],
    EOLComment := "", hasEquals := false, leadingSpace := 0, implicit := false }

/-! ## `pkg/store/workspace.go`: the workspaces of an organisation -/

/-- The fields of `entity.Workspace` that the store and the pass read (the type
is declared outside the files at hand). -/
structure entity.Workspace where
  ID : String
  Name : String
  CreatedByUserID : String
  DNS : String
  deriving DecidableEq, Repr

/-- Go `GetWorkspacesOptions`. -/
structure GetWorkspacesOptions where
  UserID : String
  Name : String
  deriving DecidableEq, Repr

/-- Go `AuthHTTPStore.GetWorkspaces`. `getWorkspaces` is the HTTP fetch of the
workspaces of an organisation; `options` is `none` for a nil pointer. An error
of the fetch is handed on (wrapped); otherwise the list is filtered by creator
when `UserID` is not empty, and then by name when `Name` is not empty. -/
def AuthHTTPStore.GetWorkspaces (getWorkspaces : String → Result (List entity.Workspace))
    (organizationID : String) (options : Option GetWorkspacesOptions) :
    Result (List entity.Workspace) :=
  match getWorkspaces organizationID with
  | .error e => .error e
  | .ok workspaces =>
    match options with
    | none => .ok workspaces
    | some options =>
      let byUser :=
        if options.UserID != "" then
          workspaces.filter fun w => w.CreatedByUserID == options.UserID
        else workspaces
      let byName :=
        if options.Name != "" then byUser.filter fun w => w.Name == options.Name
        else byUser
      .ok byName

/-! ## More auxiliary definitions -/

/-- No node of the configuration has the key `Match` (in any case). `Decode`
rejects such lines, and `Config.Get` panics on them. -/
def noMatchKey (cfg : Config) : Bool :=
  cfg.Hosts.all fun h =>
    h.Nodes.all fun n =>
      match n with
      | .KV key _ _ _ _ => toLower key != "match"
      | .Empty _ _ => true

/-- The implicit block of a file that starts with a `Host` line, and of an empty
file: no nodes, so its text is the empty string. -/
def emptyImplicitHost : Host :=
  { Patterns := [{ str := "*", not := false }], Nodes := [], EOLComment := "",
    hasEquals := false, leadingSpace := 0, implicit := true }

/-- A managed block `Host no-port` without a `Port` directive. -/
def noPortHost : Host :=
  { Patterns := [{ str := "no-port", not := false }],
    Nodes := [.KV "IdentityFile" "/home/u/.brev/brev.pem" "" false 2],
    EOLComment := "", hasEquals := false, leadingSpace := 0, implicit := false }

/-- A managed block `Host bad-port` whose `Port` is not a number. -/
def badPortHost : Host :=
  { Patterns := [{ str := "bad-port", not := false }],
    Nodes := [.KV "IdentityFile" "/home/u/.brev/brev.pem" "" false 2,
              .KV "Port" "abc" "" false 2],
    EOLComment := "", hasEquals := false, leadingSpace := 0, implicit := false }

/-- A managed block with the two patterns `a` and `b`, on port 2222. -/
def twoPatternHost : Host :=
  { Patterns := [{ str := "a", not := false }, { str := "b", not := false }],
    Nodes := [.KV "IdentityFile" "/home/u/.brev/brev.pem" "" false 2,
              .KV "Port" "2222" "" false 2],
    EOLComment := "", hasEquals := false, leadingSpace := 0, implicit := false }

/-- A foreign block `Host c`. -/
def foreignHost : Host :=
  { Patterns := [{ str := "c", not := false }],
    Nodes := [.KV "Hostname" "example.com" "" false 2],
    EOLComment := "", hasEquals := false, leadingSpace := 0, implicit := false }

/-- The block that the library reads back from an entry written by
`appendBrevEntry`. -/
def entryHost (keyPath workspaceName port : String) : Host :=
  { Patterns := [{ str := workspaceName, not := false }],
    Nodes := [.KV "Hostname" "0.0.0.0" "" false 2, .KV "IdentityFile" keyPath "" false 2,
              .KV "User" "brev" "" false 2, .KV "Port" port "" false 2],
    EOLComment := "", hasEquals := false, leadingSpace := 0, implicit := false }

/-- Three workspaces of two users, for the concrete statements about the store. -/
def sampleWorkspaces : List entity.Workspace :=
  [{ ID := "w1", Name := "api", CreatedByUserID := "u1", DNS := "api-u1" },
   { ID := "w2", Name := "web", CreatedByUserID := "u2", DNS := "web-u2" },
   { ID := "w3", Name := "web", CreatedByUserID := "u1", DNS := "web-u1" }]

/-- A configuration file that starts with a managed block `Host x`. -/
def managedFirstText : String :=
  "Host x\n\t Hostname 0.0.0.0\n\t IdentityFile /home/u/.brev/brev.pem\n" ++
  "\t User brev\n\t Port 2222\n"

/-- Value of a decimal digit character. -/
def digitValue (c : Char) : Nat := c.toNat - 48

/-- Reading a decimal numeral back, most significant digit first. -/
def readDecimal (acc : Nat) (ds : List Char) : Nat :=
  ds.foldl (fun a c => a * 10 + digitValue c) acc

theorem digitValue_digitChar (d : Nat) (h : d < 10) : digitValue (Nat.digitChar d) = d := by
  interval_cases d <;> rfl

theorem readDecimal_toDigitsCore (fuel : Nat) :
    ∀ n ds, n < fuel → readDecimal 0 (Nat.toDigitsCore 10 fuel n ds) = readDecimal n ds := by
  induction fuel with
  | zero => intro n ds h; omega
  | succ fuel ih =>
    intro n ds h
    have hd : digitValue (Nat.digitChar (n % 10)) = n % 10 :=
      digitValue_digitChar _ (Nat.mod_lt _ (by decide))
    simp only [Nat.toDigitsCore]
    split
    · rename_i h0
      simp only [readDecimal, List.foldl_cons, hd]
      congr 1
      omega
    · rename_i h0
      rw [ih (n / 10) _ (by omega)]
      simp only [readDecimal, List.foldl_cons, hd]
      congr 1
      omega

theorem Sprint_injective : Function.Injective Sprint := by
  intro a b h
  have ha := readDecimal_toDigitsCore (a + 1) a [] (by omega)
  have hb := readDecimal_toDigitsCore (b + 1) b [] (by omega)
  have h2 : Nat.toDigits 10 a = Nat.toDigits 10 b := by
    have := congrArg String.data h
    simpa [Sprint, Nat.repr, List.asString] using this
  simp only [Nat.toDigits] at h2
  rw [h2] at ha
  simpa [readDecimal] using ha.symm.trans hb

/-! ## The allocation loop -/

theorem allocLoop_some (ports : List String) (fuel : Nat) :
    ∀ start p, allocLoop ports fuel start = some p →
      start ≤ p ∧ Sprint p ∉ ports ∧ ∀ q, start ≤ q → q < p → Sprint q ∈ ports := by
  induction fuel with
  | zero => intro start p h; simp [allocLoop] at h
  | succ fuel ih =>
    intro start p h
    simp only [allocLoop] at h
    split at h
    · rename_i hin
      obtain ⟨h1, h2, h3⟩ := ih (start + 1) p h
      refine ⟨by omega, h2, fun q hq hqp => ?_⟩
      rcases Nat.eq_or_lt_of_le hq with heq | hlt
      · subst heq; simpa using hin
      · exact h3 q hlt hqp
    · rename_i hin
      cases h
      exact ⟨le_refl _, by simpa using hin, fun q hq hqp => by omega⟩

theorem allocLoop_none (ports : List String) (fuel : Nat) :
    ∀ start, allocLoop ports fuel start = none →
      ∀ q, start ≤ q → q < start + fuel → Sprint q ∈ ports := by
  induction fuel with
  | zero => intro start _ q h1 h2; omega
  | succ fuel ih =>
    intro start h q h1 h2
    simp only [allocLoop] at h
    split at h
    · rename_i hin
      rcases Nat.eq_or_lt_of_le h1 with heq | hlt
      · subst heq; simpa using hin
      · exact ih (start + 1) h q hlt (by omega)
    · cases h

theorem allocLoop_mono (ports : List String) (fuel : Nat) :
    ∀ start p, allocLoop ports fuel start = some p →
      ∀ more, fuel ≤ more → allocLoop ports more start = some p := by
  induction fuel with
  | zero => intro start p h; simp [allocLoop] at h
  | succ fuel ih =>
    intro start p h more hm
    obtain ⟨m, rfl⟩ : ∃ m, more = m + 1 := ⟨more - 1, by omega⟩
    simp only [allocLoop] at h ⊢
    split
    · rename_i hin
      rw [if_pos hin] at h
      exact ih _ _ h m (by omega)
    · rename_i hin
      rw [if_neg hin] at h
      exact h

theorem allocatePort_isSome (ports : List String) : ∃ p, allocatePort ports = some p := by
  cases h : allocatePort ports with
  | some p => exact ⟨p, rfl⟩
  | none =>
    exfalso
    have hall := allocLoop_none ports (ports.length + 1) 2222 h
    have hsub : (Finset.range (ports.length + 1)).image (fun i => Sprint (2222 + i)) ⊆
        ports.toFinset := by
      intro s hs
      obtain ⟨i, hi, rfl⟩ := Finset.mem_image.mp hs
      have hi2 := Finset.mem_range.mp hi
      exact List.mem_toFinset.mpr (hall (2222 + i) (by omega) (by omega))
    have hcard := Finset.card_le_card hsub
    rw [Finset.card_image_of_injective _
      (fun a b hab => by have := Sprint_injective hab; omega), Finset.card_range] at hcard
    have := List.toFinset_card_le ports
    omega

/-- C3 (single allocation). For every used-port set (the keys of the map, as a
list), the allocation loop started at 2222 terminates within `ports.length + 1`
iterations and returns the smallest `p >= 2222` whose numeral is not a key:
`p` is free, every `q` with `2222 <= q < p` is used; more iterations give the
same result, and so does any list with the same members. -/
theorem allocatePort_smallest_free (ports : List String) :
    ∃ p, allocatePort ports = some p ∧ 2222 ≤ p ∧ Sprint p ∉ ports ∧
      (∀ q, 2222 ≤ q → q < p → Sprint q ∈ ports) ∧
      (∀ fuel, ports.length + 1 ≤ fuel → allocLoop ports fuel 2222 = some p) ∧
      (∀ ports2 : List String, (∀ s, s ∈ ports ↔ s ∈ ports2) → allocatePort ports2 = some p) := by
  obtain ⟨p, hp⟩ := allocatePort_isSome ports
  obtain ⟨h1, h2, h3⟩ := allocLoop_some ports _ 2222 p hp
  refine ⟨p, hp, h1, h2, h3, fun fuel hf => allocLoop_mono ports _ 2222 p hp fuel hf, ?_⟩
  intro ports2 hsame
  obtain ⟨p2, hp2⟩ := allocatePort_isSome ports2
  obtain ⟨k1, k2, k3⟩ := allocLoop_some ports2 _ 2222 p2 hp2
  rw [hp2]
  congr 1
  rcases Nat.lt_trichotomy p2 p with hlt | heq | hgt
  · exact absurd ((hsame _).mp (h3 p2 k1 hlt)) k2
  · exact heq
  · exact absurd ((hsame _).mpr (k3 p h1 hgt)) h2

/-! ## Pruning and matching -/

theorem foldl_append_eq (l : List String) (acc : String) :
    l.foldl (fun r s => r ++ s) acc = acc ++ String.join l := by
  induction l generalizing acc with
  | nil => simp [String.join]
  | cons a l ih =>
    simp only [List.foldl_cons, String.join]
    rw [ih (acc ++ a), ih ("" ++ a)]
    simp [String.append_assoc]

theorem join_cons (a : String) (l : List String) : String.join (a :: l) = a ++ String.join l := by
  simp only [String.join, List.foldl_cons]
  rw [foldl_append_eq]
  simp [String.join]

theorem prune_foldl (keyPath : String) (active : List String) (hosts : List Host) (acc : String) :
    hosts.foldl
      (fun newConfig host =>
        if checkIfBrevHost keyPath host then
          if active.any fun name => host.Matches name then
            newConfig ++ host.String
          else newConfig
        else newConfig ++ host.String) acc
      = acc ++ String.join ((hosts.filter (keeps keyPath active)).map Host.String) := by
  induction hosts generalizing acc with
  | nil => simp [String.join]
  | cons h hs ih =>
    simp only [List.foldl_cons]
    rw [ih]
    by_cases hb : checkIfBrevHost keyPath h = true
    · by_cases hm : (active.any fun name => h.Matches name) = true
      · simp [hb, hm, keeps, join_cons, String.append_assoc]
      · simp [hb, hm, keeps]
    · simp [hb, keeps, join_cons, String.append_assoc]

theorem prune_eq_join (keyPath : String) (cfg : Config) (active : List String) :
    PruneInactiveWorkspaces keyPath cfg active =
      String.join ((cfg.Hosts.filter (keeps keyPath active)).map Host.String) := by
  unfold PruneInactiveWorkspaces
  rw [prune_foldl]
  simp

theorem matchesLoop_false_of_negated (aliasStr : String) (ps : List Pattern) :
    ∀ found, (∃ p ∈ ps, p.not = true ∧ p.regexMatch aliasStr = true) →
      matchesLoop aliasStr ps found = false := by
  induction ps with
  | nil => intro found h; simp at h
  | cons p ps ih =>
    intro found h
    simp only [matchesLoop]
    by_cases hm : p.regexMatch aliasStr = true
    · by_cases hn : p.not = true
      · simp [hm, hn]
      · simp only [hm, hn, if_true, if_false]
        apply ih
        obtain ⟨q, hq, hqn, hqm⟩ := h
        rcases List.mem_cons.mp hq with rfl | hq
        · exact absurd hqn hn
        · exact ⟨q, hq, hqn, hqm⟩
    · simp only [hm, if_false]
      apply ih
      obtain ⟨q, hq, hqn, hqm⟩ := h
      rcases List.mem_cons.mp hq with rfl | hq
      · exact absurd hqm hm
      · exact ⟨q, hq, hqn, hqm⟩

theorem matchesLoop_of_no_negated (aliasStr : String) (ps : List Pattern) :
    ∀ found, (∀ p ∈ ps, p.not = true → p.regexMatch aliasStr = false) →
      (matchesLoop aliasStr ps found = true ↔
        found = true ∨ ∃ p ∈ ps, p.regexMatch aliasStr = true) := by
  induction ps with
  | nil => intro found _; simp [matchesLoop]
  | cons p ps ih =>
    intro found h
    have hrest : ∀ q ∈ ps, q.not = true → q.regexMatch aliasStr = false :=
      fun q hq => h q (List.mem_cons_of_mem _ hq)
    simp only [matchesLoop]
    by_cases hm : p.regexMatch aliasStr = true
    · have hn : p.not = false := by
        cases hpn : p.not with
        | false => rfl
        | true => have := h p (List.mem_cons_self _ _) hpn; rw [hm] at this; cases this
      simp [hm, hn, ih true hrest]
    · simp [hm, ih found hrest]

theorem Matches_iff (h : Host) (aliasStr : String) :
    h.Matches aliasStr = true ↔
      (∃ p ∈ h.Patterns, p.regexMatch aliasStr = true) ∧
      (∀ p ∈ h.Patterns, p.not = true → p.regexMatch aliasStr = false) := by
  unfold Host.Matches
  by_cases hneg : ∃ p ∈ h.Patterns, p.not = true ∧ p.regexMatch aliasStr = true
  · rw [matchesLoop_false_of_negated aliasStr _ false hneg]
    obtain ⟨p, hp, hn, hm⟩ := hneg
    constructor
    · intro hf; cases hf
    · rintro ⟨_, hall⟩
      have := hall p hp hn
      rw [hm] at this; cases this
  · have hall : ∀ p ∈ h.Patterns, p.not = true → p.regexMatch aliasStr = false := by
      intro p hp hn
      cases hm : p.regexMatch aliasStr with
      | false => rfl
      | true => exact absurd ⟨p, hp, hn, hm⟩ hneg
    rw [matchesLoop_of_no_negated aliasStr _ false hall]
    constructor
    · rintro (hf | hex)
      · cases hf
      · exact ⟨hex, hall⟩
    · rintro ⟨hex, _⟩
      exact Or.inr hex

/-! ## Claims about pruning, detection and rendering -/

/-- C5, the claim as stated fails. The file with a blank line and the block
`Host ws-* !ws-1` carrying the managed key decodes to a managed block one of
whose patterns (`ws-*`) matches the active identifier `ws-1`; yet the block is
pruned, the output being only the blank line, because the negated pattern
matches too. -/
theorem PruneInactiveWorkspaces_negated_pattern_dropped :
    Decode "\nHost ws-* !ws-1\n  IdentityFile /home/u/.brev/brev.pem\n  Port 2222\n" =
      .ok { Hosts := [blankImplicitHost, negatedHost] } ∧
    checkIfBrevHost exampleKeyPath negatedHost = true ∧
    (∃ p ∈ negatedHost.Patterns, ∃ name ∈ ["ws-1"], p.regexMatch name = true) ∧
    PruneInactiveWorkspaces exampleKeyPath { Hosts := [blankImplicitHost, negatedHost] }
      ["ws-1"] = "\n" := by
  refine ⟨by decide!, by decide!, ⟨⟨"ws-*", false⟩, by decide!, "ws-1", by decide!, by decide!⟩,
    by decide!⟩

/-- C9 (managed-entry detection). `checkIfBrevHost` is true exactly when some
key/value node of the block has the key `IdentityFile`, spelled so, and a value
equal to the private-key path; a block without such a node (no `IdentityFile`,
another value, another spelling of the key) is foreign. -/
theorem checkIfBrevHost_iff (keyPath : String) (host : Host) :
    checkIfBrevHost keyPath host = true ↔
      ∃ comment hasEquals leadingSpace,
        Node.KV "IdentityFile" keyPath comment hasEquals leadingSpace ∈ host.Nodes := by
  unfold checkIfBrevHost
  rw [List.any_eq_true]
  constructor
  · rintro ⟨node, hmem, hnode⟩
    cases node with
    | KV key value comment hasEquals leadingSpace =>
      simp only [Bool.and_eq_true, decide_eq_true_eq] at hnode
      obtain ⟨hk, hv⟩ := hnode
      subst hk hv
      exact ⟨comment, hasEquals, leadingSpace, hmem⟩
    | Empty comment leadingSpace => simp at hnode
  · rintro ⟨comment, hasEquals, leadingSpace, hmem⟩
    exact ⟨_, hmem, by simp⟩

theorem splitChars_of_not_mem (sep : Char) (l : List Char) (h : sep ∉ l) :
    splitChars sep l = [l] := by
  induction l with
  | nil => rfl
  | cons c cs ih =>
    have hc : c ≠ sep := fun e => h (by simp [e])
    have hcs : sep ∉ cs := fun e => h (List.mem_cons_of_mem _ e)
    simp [splitChars, ih hcs, hc]

theorem parsePatterns_single (workspaceName : String) (h1 : ' ' ∉ workspaceName.data)
    (h2 : workspaceName ≠ "") (h3 : workspaceName.data.head? ≠ some '!') :
    parsePatterns workspaceName = [{ str := workspaceName, not := false }] := by
  unfold parsePatterns stringsSplit
  rw [splitChars_of_not_mem _ _ h1]
  have hne : (String.mk workspaceName.data != "") = true := by
    simpa using h2
  simp only [List.map_cons, List.map_nil, List.filter_cons, hne, if_true, List.filter_nil]
  split
  · rename_i r hr
    have hd : workspaceName.data = '!' :: r := hr
    rw [hd] at h3
    simp at h3
  · rfl

/-! ## The pass evaluated at concrete inputs -/

/-- C1 at a failing input. The file holds one blank line (no managed block, so
the precondition on ports holds) and the active identifiers are `a` and `b`.
`CreateBrevSSHConfigEntries` records port 2222 for both: the used ports are
looked up for the names in `brevHostValues`, which was computed before the loop
and is empty, so the block written for `a` is never consulted. -/
theorem CreateBrevSSHConfigEntries_same_port_twice :
    (GetSSHConfig blankConfigFS).2 = .ok blankConfig ∧
    GetBrevHostValues exampleKeyPath blankConfig = .ok [] ∧
    (CreateBrevSSHConfigEntries exampleKeyPath blankConfigFS blankConfig ["a", "b"]).2 =
      .ok [("a", "2222"), ("b", "2222")] := by
  refine ⟨by decide!, by decide!, by decide!⟩

/-- C2 at a failing input. The file holds one comment line, no port is in use and
the three identifiers are new; the ports recorded are 2222, 2222, 2222 and not
2222, 2223, 2224. -/
theorem CreateBrevSSHConfigEntries_three_times_2222 :
    (GetSSHConfig commentConfigFS).2 = .ok commentConfig ∧
    GetBrevHostValues exampleKeyPath commentConfig = .ok [] ∧
    (CreateBrevSSHConfigEntries exampleKeyPath commentConfigFS commentConfig
        ["ws-a", "ws-b", "ws-c"]).2 =
      .ok [("ws-a", "2222"), ("ws-b", "2222"), ("ws-c", "2222")] := by
  refine ⟨by decide!, by decide!, by decide!⟩

/-- C6 at a failing input. From a file of one blank line and the active
identifiers `a`, `b`, the first pass leaves a file whose only block is `b` on
port 2222 (the entry for `b` is written at offset 0, over the entry for `a`);
the second pass with the same identifiers finds `a` missing, writes its entry
at offset 0 again and leaves a file whose only block is `a` on port 2223. -/
theorem Config_second_pass_changes_file :
    (DefaultSSHConfigurer.Config exampleKeyPath "pem" (.ok "org") (inventory ["a", "b"]) blankConfigFS) =
      ({ sshConfig := some ("\nHost b\n  Hostname 0.0.0.0\n" ++
            "  IdentityFile /home/u/.brev/brev.pem\n  User brev\n  Port 2222\n"),
         privateKeyFile := some "pem" },
       .ok [("a", "2222"), ("b", "2222")]) ∧
    (DefaultSSHConfigurer.Config exampleKeyPath "pem" (.ok "org") (inventory ["a", "b"])
        (DefaultSSHConfigurer.Config exampleKeyPath "pem" (.ok "org") (inventory ["a", "b"]) blankConfigFS).1) =
      ({ sshConfig := some ("\nHost a\n  Hostname 0.0.0.0\n" ++
            "  IdentityFile /home/u/.brev/brev.pem\n  User brev\n  Port 2223\n"),
         privateKeyFile := some "pem" },
       .ok [("a", "2223")]) := by
  refine ⟨by decide!, by decide!⟩

/-- C7 at two failing inputs. With no configuration file yet and the active
identifier `a`, the pass creates the empty file and then panics in
`hostnameFromString` on the empty text of the implicit block: the file holds no
block for `a`. With a file of one blank line and the active identifiers `a`,
`b`, the pass succeeds and the managed identifiers of the resulting file are
just `b`. -/
theorem Config_misses_active_identifier :
    DefaultSSHConfigurer.Config exampleKeyPath "pem" (.ok "org") (inventory ["a"]) freshFS =
      ({ sshConfig := some "", privateKeyFile := some "pem" },
       .error (.panic "index out of range [1]")) ∧
    ((DefaultSSHConfigurer.Config exampleKeyPath "pem" (.ok "org") (inventory ["a", "b"])
        blankConfigFS).1.sshConfig.map
        fun text => (Decode text).bind (GetBrevHostValues exampleKeyPath)) =
      some (.ok ["b"]) := by
  refine ⟨by decide!, by decide!⟩

/-- C8 at the scenario of the claim. When the file starts with the line
`Host myserver`, the implicit block has the empty text and the pass panics in
`hostnameFromString` before anything is allocated; the file is left as it was,
stale block included. With a blank line in front the pass runs: `new-ws` gets
port 2223, but its entry is written at offset 0, over the `myserver` block, and
the blocks of the resulting file are the implicit one and `new-ws`. -/
theorem Config_scenario_loses_foreign_block :
    DefaultSSHConfigurer.Config exampleKeyPath "pem" (.ok "org") (inventory ["new-ws"])
        { sshConfig := some scenarioText, privateKeyFile := none } =
      ({ sshConfig := some scenarioText, privateKeyFile := some "pem" },
       .error (.panic "index out of range [1]")) ∧
    (DefaultSSHConfigurer.Config exampleKeyPath "pem" (.ok "org") (inventory ["new-ws"])
        { sshConfig := some ("\n" ++ scenarioText), privateKeyFile := none }).2 =
      .ok [("new-ws", "2223")] ∧
    ((DefaultSSHConfigurer.Config exampleKeyPath "pem" (.ok "org") (inventory ["new-ws"])
        { sshConfig := some ("\n" ++ scenarioText), privateKeyFile := none }).1.sshConfig.map
        fun text => (Decode text).map fun c => c.Hosts.map fun h => h.Patterns.map Pattern.str) =
      some (.ok [["*"], ["new-ws"]]) := by
  refine ⟨by decide!, by decide!, by decide!⟩

/-! ## The store: filtering workspaces -/

/-- C18 (workspace filtering). When the fetch succeeds, `GetWorkspaces` returns
the fetched list as it is for nil options and for options with both fields
empty; otherwise it returns, in the original order, exactly the workspaces whose
creator equals `UserID` (when that is not empty) and whose name equals `Name`
(when that is not empty). The result is a sublist of the fetched list, and
filtering the result again with the same options gives the result. -/
theorem GetWorkspaces_filters (getWorkspaces : String → Result (List entity.Workspace))
    (organizationID : String) (workspaces : List entity.Workspace) :
    getWorkspaces organizationID = .ok workspaces →
    AuthHTTPStore.GetWorkspaces getWorkspaces organizationID none = .ok workspaces ∧
    ∀ options : GetWorkspacesOptions,
      ∃ result,
        AuthHTTPStore.GetWorkspaces getWorkspaces organizationID (some options) = .ok result ∧
        result = workspaces.filter (fun w =>
          (options.UserID == "" || w.CreatedByUserID == options.UserID) &&
          (options.Name == "" || w.Name == options.Name)) ∧
        (options.UserID = "" → options.Name = "" → result = workspaces) ∧
        result.Sublist workspaces ∧
        AuthHTTPStore.GetWorkspaces (fun _ => .ok result) organizationID (some options) =
          .ok result := by
  intro hfetch
  refine ⟨by simp [AuthHTTPStore.GetWorkspaces, hfetch], fun options => ?_⟩
  have key : ∀ ws : List entity.Workspace,
      (if options.Name != "" then
          (if options.UserID != "" then ws.filter fun w => w.CreatedByUserID == options.UserID
            else ws).filter fun w => w.Name == options.Name
        else
          (if options.UserID != "" then ws.filter fun w => w.CreatedByUserID == options.UserID
            else ws)) =
        ws.filter (fun w =>
          (options.UserID == "" || w.CreatedByUserID == options.UserID) &&
          (options.Name == "" || w.Name == options.Name)) := by
    intro ws
    by_cases hu : options.UserID = "" <;> by_cases hn : options.Name = ""
    · simp [hu, hn]
    · have hn2 : (options.Name == "") = false := by simpa using hn
      simp [hu, hn, hn2]
    · have hu2 : (options.UserID == "") = false := by simpa using hu
      simp [hu, hn, hu2]
    · have hn2 : (options.Name == "") = false := by simpa using hn
      have hu2 : (options.UserID == "") = false := by simpa using hu
      simp [hu, hn, hu2, hn2, List.filter_filter, Bool.and_comm]
  refine ⟨_, by simp only [AuthHTTPStore.GetWorkspaces, hfetch], key workspaces, ?_, ?_, ?_⟩
  · intro hu hn
    simp [hu, hn]
  · rw [key]; exact List.filter_sublist _
  · simp only [AuthHTTPStore.GetWorkspaces]
    rw [key workspaces, key]
    simp [List.filter_filter]


/-- Witness for C18: the theorem at three concrete workspaces, with the options
that select the workspaces of user `u1`. -/
theorem GetWorkspaces_filters_witness :
    (fun _ => (.ok sampleWorkspaces : Result (List entity.Workspace))) "org" =
      .ok sampleWorkspaces ∧
    AuthHTTPStore.GetWorkspaces (fun _ => .ok sampleWorkspaces) "org" none =
      .ok sampleWorkspaces ∧
    ∃ result,
      AuthHTTPStore.GetWorkspaces (fun _ => .ok sampleWorkspaces) "org"
        (some { UserID := "u1", Name := "" }) = .ok result ∧
      result = sampleWorkspaces.filter (fun w =>
        (("u1" : String) == "" || w.CreatedByUserID == "u1") &&
        (("" : String) == "" || w.Name == "")) ∧
      ((("u1" : String) = "") → (("" : String) = "") → result = sampleWorkspaces) ∧
      result.Sublist sampleWorkspaces ∧
      AuthHTTPStore.GetWorkspaces (fun _ => .ok result) "org"
        (some { UserID := "u1", Name := "" }) = .ok result :=
  ⟨rfl, (GetWorkspaces_filters (fun _ => .ok sampleWorkspaces) "org" sampleWorkspaces rfl).1,
    (GetWorkspaces_filters (fun _ => .ok sampleWorkspaces) "org" sampleWorkspaces rfl).2
      { UserID := "u1", Name := "" }⟩

/-! ## Failure of the inventory, empty input, names of blocks, used ports -/

/-- C15 as amended (inventory failure). When `GetMyWorkspaces` fails, `Config`
returns that very error and leaves the SSH configuration file as it was (not
created, not written); the one file the pass has written by then is the private
key file, which `Config` writes before it asks the inventory. -/
theorem Config_inventory_failure (keyPath privateKey orgID : String)
    (GetMyWorkspaces : String → Result (List Workspace)) (e : Failure) (fs : FS) :
    GetMyWorkspaces orgID = .error e →
    DefaultSSHConfigurer.Config keyPath privateKey (.ok orgID) GetMyWorkspaces fs =
      ({ sshConfig := fs.sshConfig, privateKeyFile := some privateKey }, .error e) := by
  intro h
  simp [DefaultSSHConfigurer.Config, h, WriteSSHPrivateKey]

/-- Witness for C15: the theorem at an inventory that is unreachable. -/
theorem Config_inventory_failure_witness :
    (fun _ => (.error (.error "inventory unreachable") : Result (List Workspace))) "org" =
      .error (.error "inventory unreachable") ∧
    DefaultSSHConfigurer.Config exampleKeyPath "pem" (.ok "org")
        (fun _ => .error (.error "inventory unreachable")) blankConfigFS =
      ({ sshConfig := blankConfigFS.sshConfig, privateKeyFile := some "pem" },
       .error (.error "inventory unreachable")) :=
  ⟨rfl, Config_inventory_failure exampleKeyPath "pem" "org" _ _ blankConfigFS rfl⟩

/-- C15, the claim as stated fails: with no file at all before the pass and an
inventory that fails, the file system after the pass differs from the one
before: the private key file has been written. -/
theorem Config_inventory_failure_writes_key :
    (DefaultSSHConfigurer.Config exampleKeyPath "pem" (.ok "org")
        (fun _ => .error (.error "inventory unreachable")) freshFS).1 ≠ freshFS ∧
    (DefaultSSHConfigurer.Config exampleKeyPath "pem" (.ok "org")
        (fun _ => .error (.error "inventory unreachable")) freshFS).1.privateKeyFile =
      some "pem" := by
  refine ⟨by decide!, by decide!⟩

/-- C13 at the failing input. The empty text decodes to the implicit block alone,
whose text is the empty string; `GetBrevHostValues` panics on it in
`hostnameFromString` instead of returning the empty list, and
`CreateBrevSSHConfigEntries` for the active identifier `a` ends with that panic
without allocating a port or writing an entry. -/
theorem GetBrevHostValues_empty_config_panics :
    Decode "" = .ok { Hosts := [emptyImplicitHost] } ∧
    emptyImplicitHost.String = "" ∧
    GetBrevHostValues exampleKeyPath { Hosts := [emptyImplicitHost] } =
      .error (.panic "index out of range [1]") ∧
    CreateBrevSSHConfigEntries exampleKeyPath { sshConfig := some "", privateKeyFile := none }
        { Hosts := [emptyImplicitHost] } ["a"] =
      ({ sshConfig := some "", privateKeyFile := none },
       .error (.panic "index out of range [1]")) := by
  refine ⟨by decide!, by decide!, by decide!, by decide!⟩

/-- C17 at failing inputs. `hostnameFromString` panics with an index out of range
on the empty string (the case `""` of its switch does not return) and on a
first line without a space; only the lone newline is returned as it is. -/
theorem hostnameFromString_panics :
    hostnameFromString "" = .error (.panic "index out of range [1]") ∧
    hostnameFromString "#comment\n" = .error (.panic "index out of range [1]") ∧
    hostnameFromString "\n" = .ok "\n" := by
  refine ⟨by decide!, by decide!, by decide!⟩

theorem getInNodes_noMatch (lowerKey : String) (nodes : List Node)
    (h : (nodes.all fun n =>
      match n with
      | .KV key _ _ _ _ => toLower key != "match"
      | .Empty _ _ => true) = true) :
    getInNodes lowerKey nodes = none ∨ ∃ v, getInNodes lowerKey nodes = some (.ok v) := by
  induction nodes with
  | nil => exact Or.inl rfl
  | cons n ns ih =>
    rw [List.all_cons, Bool.and_eq_true] at h
    cases n with
    | Empty c l => simpa [getInNodes] using ih h.2
    | KV key value c e l =>
      have hk : toLower key ≠ "match" := by simpa using h.1
      simp only [getInNodes, hk, if_false]
      split
      · exact Or.inr ⟨value, rfl⟩
      · exact ih h.2

theorem getInHosts_noMatch (aliasStr lowerKey : String) (hosts : List Host)
    (h : noMatchKey { Hosts := hosts } = true) :
    ∃ v, getInHosts aliasStr lowerKey hosts = .ok v := by
  induction hosts with
  | nil => exact ⟨"", rfl⟩
  | cons x xs ih =>
    simp only [noMatchKey, List.all_cons, Bool.and_eq_true] at h
    have ih2 := ih (by simpa [noMatchKey] using h.2)
    simp only [getInHosts]
    split
    · rcases getInNodes_noMatch lowerKey x.Nodes h.1 with hn | ⟨v, hv⟩
      · rw [hn]; exact ih2
      · rw [hv]; exact ⟨v, rfl⟩
    · exact ih2

/-- C11 as amended (used ports). `GetBrevPorts` validates nothing: on a
configuration without a `Match` key (every decoded configuration), it returns a
set for every list of names, holding for each name exactly the string that
`cfg.Get(name, "Port")` yields, be it a numeral, any other text, or the empty
string when no matching block has a `Port`. -/
theorem GetBrevPorts_never_validates (cfg : Config) (names : List String) :
    noMatchKey cfg = true →
    ∃ ports, GetBrevPorts cfg names = .ok ports ∧
      List.Forall₂ (fun name port => cfg.Get name "Port" = .ok port) names ports := by
  intro h
  induction names with
  | nil => exact ⟨[], rfl, List.Forall₂.nil⟩
  | cons name rest ih =>
    obtain ⟨ports, hp, hall⟩ := ih
    obtain ⟨v, hv⟩ := getInHosts_noMatch name (toLower "Port") cfg.Hosts h
    have hg : cfg.Get name "Port" = .ok v := hv
    exact ⟨v :: ports, by simp [GetBrevPorts, hg, hp], List.Forall₂.cons hg hall⟩

/-- Witness for C11: the theorem at a configuration with a managed block without
`Port` and one with `Port abc`. -/
theorem GetBrevPorts_never_validates_witness :
    noMatchKey { Hosts := [blankImplicitHost, noPortHost, badPortHost] } = true ∧
    ∃ ports, GetBrevPorts { Hosts := [blankImplicitHost, noPortHost, badPortHost] }
        ["no-port", "bad-port"] = .ok ports ∧
      List.Forall₂
        (fun name port =>
          Config.Get { Hosts := [blankImplicitHost, noPortHost, badPortHost] } name "Port" =
            .ok port)
        ["no-port", "bad-port"] ports :=
  ⟨by decide!, GetBrevPorts_never_validates _ _ (by decide!)⟩

/-- C11, the claim as stated fails: for the managed blocks `no-port` (no `Port`
directive) and `bad-port` (`Port abc`) `GetBrevPorts` returns the set holding
the empty string and `abc`, and no error. -/
theorem GetBrevPorts_accepts_missing_and_bad_port :
    Decode ("\nHost no-port\n  IdentityFile /home/u/.brev/brev.pem\n" ++
        "Host bad-port\n  IdentityFile /home/u/.brev/brev.pem\n  Port abc\n") =
      .ok { Hosts := [blankImplicitHost, noPortHost, badPortHost] } ∧
    GetBrevHostValues exampleKeyPath { Hosts := [blankImplicitHost, noPortHost, badPortHost] } =
      .ok ["no-port", "bad-port"] ∧
    GetBrevPorts { Hosts := [blankImplicitHost, noPortHost, badPortHost] }
        ["no-port", "bad-port"] = .ok ["", "abc"] := by
  refine ⟨by decide!, by decide!, by decide!⟩


/-! ## Splitting text, and the name of a block -/

theorem splitChars_ne_nil (sep : Char) (l : List Char) :
    ∃ w ws, splitChars sep l = w :: ws := by
  induction l with
  | nil => exact ⟨[], [], rfl⟩
  | cons c cs ih =>
    obtain ⟨w, ws, h⟩ := ih
    by_cases hc : c = sep
    · exact ⟨[], w :: ws, by simp [splitChars, h, hc]⟩
    · exact ⟨c :: w, ws, by simp [splitChars, h, hc]⟩

theorem splitChars_append_sep (sep : Char) (a b : List Char) (h : sep ∉ a) :
    splitChars sep (a ++ sep :: b) = a :: splitChars sep b := by
  induction a with
  | nil =>
    obtain ⟨w, ws, hb⟩ := splitChars_ne_nil sep b
    simp [splitChars, hb]
  | cons c cs ih =>
    have hc : c ≠ sep := fun e => h (by simp [e])
    have hcs : sep ∉ cs := fun e => h (List.mem_cons_of_mem _ e)
    simp [splitChars, ih hcs, hc]

/-- The first piece of a split is the text before the first separator. -/
theorem splitChars_head (sep : Char) (l : List Char) :
    ∃ ws, splitChars sep l = l.takeWhile (fun c => c != sep) :: ws := by
  induction l with
  | nil => exact ⟨[], rfl⟩
  | cons c cs ih =>
    obtain ⟨ws, h⟩ := ih
    by_cases hc : c = sep
    · exact ⟨cs.takeWhile (fun c => c != sep) :: ws, by simp [splitChars, h, hc]⟩
    · exact ⟨ws, by simp [splitChars, h, hc]⟩

theorem hostnameFromString_Host_line (p rest : List Char) (hp : ' ' ∉ p) (hpn : '\n' ∉ p)
    (hrest : rest = [] ∨ rest.head? = some ' ' ∨ rest.head? = some '\n') :
    hostnameFromString (String.mk ("Host ".data ++ p ++ rest)) = .ok (String.mk p) := by
  have hne : String.mk ("Host ".data ++ p ++ rest) ≠ "\n" := by
    intro h
    have := congrArg String.data h
    simp at this
  obtain ⟨ws, hws⟩ := splitChars_head '\n' ("Host ".data ++ p ++ rest)
  have htake : ("Host ".data ++ p ++ rest).takeWhile (fun c => c != '\n') =
      "Host".data ++ ' ' :: (p ++ rest.takeWhile (fun c => c != '\n')) := by
    rw [List.append_assoc, List.takeWhile_append_of_pos (by decide),
      List.takeWhile_append_of_pos]
    · rfl
    · intro a ha
      have : a ≠ '\n' := fun e => hpn (e ▸ ha)
      simpa using this
  have hsplit : ∃ tl, splitChars ' ' ("Host".data ++ ' ' ::
      (p ++ rest.takeWhile (fun c => c != '\n'))) = "Host".data :: p :: tl := by
    rw [splitChars_append_sep _ _ _ (by decide)]
    rcases hrest with h | h | h
    · subst h
      exact ⟨[], by simp [splitChars_of_not_mem _ _ hp]⟩
    · cases rest with
      | nil => simp at h
      | cons c r =>
        simp at h
        subst h
        simp only [List.takeWhile_cons, show (' ' != '\n') = true by decide, if_true]
        rw [splitChars_append_sep _ _ _ hp]
        exact ⟨_, rfl⟩
    · cases rest with
      | nil => simp at h
      | cons c r =>
        simp at h
        subst h
        simp only [List.takeWhile_cons, show ('\n' != '\n') = false by decide]
        exact ⟨[], by simp [splitChars_of_not_mem _ _ hp]⟩
  obtain ⟨tl, htl⟩ := hsplit
  unfold hostnameFromString
  rw [if_neg hne]
  simp only [stringsSplit, hws, htake, List.map_cons, List.headD_cons, htl]

theorem intercalate_go_spec (xs : List String) :
    ∀ acc : String, ∃ t : String, String.intercalate.go acc " " xs = acc ++ t ∧
      (t = "" ∨ t.data.head? = some ' ') := by
  induction xs with
  | nil => intro acc; exact ⟨"", by simp [String.intercalate.go], Or.inl rfl⟩
  | cons a xs ih =>
    intro acc
    obtain ⟨t, ht, _⟩ := ih (acc ++ " " ++ a)
    refine ⟨" " ++ a ++ t, ?_, Or.inr ?_⟩
    · show String.intercalate.go (acc ++ " " ++ a) " " xs = acc ++ (" " ++ a ++ t)
      rw [ht]
      simp only [String.append_assoc]
    · simp [String.data_append]

theorem hostnameFromString_regular (h : Host) (p : Pattern) (ps : List Pattern)
    (himp : h.implicit = false) (heq : h.hasEquals = false) (hls : h.leadingSpace = 0)
    (hpat : h.Patterns = p :: ps) (hp : ' ' ∉ p.str.data) (hpn : '\n' ∉ p.str.data) :
    hostnameFromString h.String = .ok p.str := by
  obtain ⟨t, ht, htail⟩ := intercalate_go_spec (ps.map Pattern.str) p.str
  have hstr : h.String = String.mk ("Host ".data ++ p.str.data ++
      (t.data ++ ((if h.EOLComment = "" then "" else " #" ++ h.EOLComment) ++ "\n" ++
        String.join (h.Nodes.map fun n => n.String ++ "\n")).data)) := by
    unfold Host.String
    simp only [himp, heq, hls, hpat, List.map_cons, String.intercalate, ht]
    apply String.ext
    simp [spaces, String.data_append, List.append_assoc]
  rw [hstr]
  have hrest : ∀ rest : List Char,
      (rest = [] ∨ rest.head? = some ' ' ∨ rest.head? = some '\n') →
      hostnameFromString (String.mk ("Host ".data ++ p.str.data ++ rest)) = .ok p.str :=
    fun rest hr => hostnameFromString_Host_line p.str.data rest hp hpn hr
  apply hrest
  · rcases htail with h0 | h1
    · subst h0
      by_cases hc : h.EOLComment = ""
      · right; right; simp [hc, String.data_append]
      · right; left; simp [hc, String.data_append]
    · right; left
      cases hd : t.data with
      | nil => rw [hd] at h1; simp at h1
      | cons c r => rw [hd] at h1; simpa using h1

theorem GetBrevHostValuesLoop_spec (keyPath : String) (hosts : List Host) (names : List String)
    (h : List.Forall₂ (fun host name => hostnameFromString host.String = .ok name) hosts names) :
    ∀ acc, GetBrevHostValuesLoop keyPath hosts acc =
      .ok (acc ++ ((hosts.zip names).filter fun hn => checkIfBrevHost keyPath hn.1).map
        Prod.snd) := by
  induction h with
  | nil => intro acc; simp [GetBrevHostValuesLoop]
  | @cons host name hosts names hhead _ ih =>
    intro acc
    simp only [GetBrevHostValuesLoop, hhead, ih, List.zip_cons_cons, List.filter_cons]
    by_cases hb : checkIfBrevHost keyPath host = true
    · simp [hb]
    · simp [hb]

/-- C14 as amended (managed identifiers). When the text of every block has a
name in the sense of `hostnameFromString` (the second space-separated field of
its first line), `GetBrevHostValues` returns, in document order, that one name
for each managed block and nothing for a foreign block. For a block printed as
`Host p ...` the name is the first pattern `p` alone. -/
theorem GetBrevHostValues_first_pattern_only (keyPath : String) (cfg : Config)
    (names : List String) :
    List.Forall₂ (fun host name => hostnameFromString host.String = .ok name) cfg.Hosts names →
    GetBrevHostValues keyPath cfg =
      .ok (((cfg.Hosts.zip names).filter fun hn => checkIfBrevHost keyPath hn.1).map Prod.snd) ∧
    ∀ h ∈ cfg.Hosts, ∀ p ps, h.implicit = false → h.hasEquals = false → h.leadingSpace = 0 →
      h.Patterns = p :: ps → ' ' ∉ p.str.data → '\n' ∉ p.str.data →
      hostnameFromString h.String = .ok p.str := by
  intro h
  refine ⟨?_, fun host _ p ps h1 h2 h3 h4 h5 h6 =>
    hostnameFromString_regular host p ps h1 h2 h3 h4 h5 h6⟩
  unfold GetBrevHostValues
  rw [GetBrevHostValuesLoop_spec keyPath _ _ h]
  simp

/-- Witness for C14: the theorem at a configuration with the managed block
`Host a b` and the foreign block `Host c`. -/
theorem GetBrevHostValues_first_pattern_only_witness :
    List.Forall₂ (fun host name => hostnameFromString host.String = .ok name)
      [blankImplicitHost, twoPatternHost, foreignHost] ["\n", "a", "c"] ∧
    GetBrevHostValues exampleKeyPath { Hosts := [blankImplicitHost, twoPatternHost, foreignHost] } =
      .ok ((([blankImplicitHost, twoPatternHost, foreignHost].zip ["\n", "a", "c"]).filter
        fun hn => checkIfBrevHost exampleKeyPath hn.1).map Prod.snd) :=
  have h : List.Forall₂ (fun host name => hostnameFromString host.String = .ok name)
      [blankImplicitHost, twoPatternHost, foreignHost] ["\n", "a", "c"] :=
    List.Forall₂.cons (by decide!) (List.Forall₂.cons (by decide!)
      (List.Forall₂.cons (by decide!) List.Forall₂.nil))
  ⟨h, (GetBrevHostValues_first_pattern_only exampleKeyPath
    { Hosts := [blankImplicitHost, twoPatternHost, foreignHost] } ["\n", "a", "c"] h).1⟩

/-- C14, the claim as stated fails: the managed block `Host a b` contributes its
first pattern `a` only; `b` is not among the managed identifiers. -/
theorem GetBrevHostValues_misses_second_pattern :
    Decode ("\nHost a b\n  IdentityFile /home/u/.brev/brev.pem\n  Port 2222\n" ++
        "Host c\n  Hostname example.com\n") =
      .ok { Hosts := [blankImplicitHost, twoPatternHost, foreignHost] } ∧
    checkIfBrevHost exampleKeyPath twoPatternHost = true ∧
    twoPatternHost.Patterns.map Pattern.str = ["a", "b"] ∧
    GetBrevHostValues exampleKeyPath { Hosts := [blankImplicitHost, twoPatternHost, foreignHost] } =
      .ok ["a"] := by
  refine ⟨by decide!, by decide!, by decide!, by decide!⟩


/-! ## Reading an entry back -/

theorem lexKey_literal (key rest : List Char)
    (h : ∀ c ∈ key, isSpace c = false ∧ c ≠ '=') :
    lexKey (key ++ ' ' :: rest) = (key, ' ' :: rest) := by
  induction key with
  | nil => simp [lexKey, isSpace]
  | cons c cs ih =>
    have hc := h c (List.mem_cons_self _ _)
    have ih2 := ih (fun d hd => h d (List.mem_cons_of_mem _ hd))
    simp [lexKey, hc.1, hc.2, ih2]

theorem lexRvalue_no_hash (v : List Char) (h : '#' ∉ v) : lexRvalue v = (v, []) := by
  induction v with
  | nil => rfl
  | cons c cs ih =>
    have hc : c ≠ '#' := fun e => h (by simp [e])
    have ih2 := ih (fun e => h (List.mem_cons_of_mem _ e))
    simp [lexRvalue, hc, ih2]

theorem lexEquals_value (v : List Char)
    (h : ∀ c, v.head? = some c → isSpace c = false ∧ c ≠ '=') :
    lexEquals (' ' :: v) = (false, v) := by
  cases v with
  | nil => simp [lexEquals, dropSpaces, isSpace]
  | cons c r =>
    obtain ⟨hsp, heq⟩ := h c rfl
    have h1 : dropSpaces (' ' :: c :: r) = c :: r := by
      simp [dropSpaces, hsp, show isSpace ' ' = true by decide]
    simp only [lexEquals, h1]
    simp [heq]

theorem lexLine_Host (v : List Char) (h1 : '#' ∉ v)
    (h2 : ∀ c, v.head? = some c → isSpace c = false ∧ c ≠ '=') :
    lexLine ("Host ".data ++ v) = .kv "Host" (String.mk v) "" false 0 := by
  have hk : lexKey ("Host".data ++ ' ' :: v) = ("Host".data, ' ' :: v) :=
    lexKey_literal _ _ (by decide)
  have hk2 : lexKey ('H' :: 'o' :: 's' :: 't' :: ' ' :: v) = ("Host".data, ' ' :: v) := hk
  simp only [lexLine]
  simp [dropSpaces, isSpace, countSpaces, hk2, lexEquals_value v h2, lexRvalue_no_hash v h1]

theorem lexLine_directive (c : Char) (key v : List Char)
    (hc : isSpace c = false ∧ c ≠ '=' ∧ c ≠ '#')
    (hkey : ∀ d ∈ key, isSpace d = false ∧ d ≠ '=') (h1 : '#' ∉ v)
    (h2 : ∀ d, v.head? = some d → isSpace d = false ∧ d ≠ '=') :
    lexLine ('\t' :: ' ' :: (c :: key) ++ ' ' :: v) =
      .kv (String.mk (c :: key)) (String.mk v) "" false 2 := by
  have hk : lexKey ((c :: key) ++ ' ' :: v) = (c :: key, ' ' :: v) :=
    lexKey_literal _ _ (by
      intro d hd
      rcases List.mem_cons.mp hd with rfl | hd
      · exact ⟨hc.1, hc.2.1⟩
      · exact hkey d hd)
  have hk2 : lexKey (c :: (key ++ ' ' :: v)) = (c :: key, ' ' :: v) := hk
  obtain ⟨hsp, _, hhash⟩ := hc
  have hd : dropSpaces ('\t' :: ' ' :: (c :: key) ++ ' ' :: v) = c :: (key ++ ' ' :: v) := by
    simp [dropSpaces, hsp, show isSpace ' ' = true by decide,
      show isSpace '\t' = true by decide]
  have hn : countSpaces ('\t' :: ' ' :: (c :: key) ++ ' ' :: v) = 2 := by
    simp [countSpaces, hsp, show isSpace ' ' = true by decide,
      show isSpace '\t' = true by decide]
  simp only [lexLine, hd, hn, hk2, lexEquals_value v h2, lexRvalue_no_hash v h1]
  simp [hhash]


theorem digitChar_mem (d : Nat) (h : d < 10) : Nat.digitChar d ∈ "0123456789".data := by
  interval_cases d <;> decide

theorem toDigitsCore_digits (fuel : Nat) :
    ∀ n ds, (∀ c ∈ ds, c ∈ "0123456789".data) →
      ∀ c ∈ Nat.toDigitsCore 10 fuel n ds, c ∈ "0123456789".data := by
  induction fuel with
  | zero => intro n ds h c hc; exact h c (by simpa [Nat.toDigitsCore] using hc)
  | succ fuel ih =>
    intro n ds h c hc
    have hd := digitChar_mem (n % 10) (Nat.mod_lt _ (by decide))
    have hcons : ∀ c ∈ Nat.digitChar (n % 10) :: ds, c ∈ "0123456789".data := by
      intro c hc
      rcases List.mem_cons.mp hc with rfl | hc
      · exact hd
      · exact h c hc
    simp only [Nat.toDigitsCore] at hc
    split at hc
    · exact hcons c hc
    · exact ih _ _ hcons c hc

theorem Sprint_digits (n : Nat) : ∀ c ∈ (Sprint n).data, c ∈ "0123456789".data := by
  intro c hc
  exact toDigitsCore_digits (n + 1) n [] (by simp) c
    (by simpa [Sprint, Nat.repr, Nat.toDigits, List.asString] using hc)

theorem digit_plain (c : Char) (h : c ∈ "0123456789".data) :
    c ≠ '\n' ∧ c ≠ '#' ∧ c ≠ '=' ∧ isSpace c = false := by
  have h2 : c ∈ ['0', '1', '2', '3', '4', '5', '6', '7', '8', '9'] := h
  simp only [List.mem_cons, List.mem_singleton, List.not_mem_nil, or_false] at h2
  rcases h2 with rfl | rfl | rfl | rfl | rfl | rfl | rfl | rfl | rfl | rfl <;> decide

theorem starMatch_of_true (rest : List Char → Bool) (s : List Char) (h : rest s = true) :
    starMatch rest s = true := by
  cases s with
  | nil => simpa [starMatch] using h
  | cons c cs => simp [starMatch, h]

theorem starMatch_all (s : List Char) (h : '\n' ∉ s) :
    starMatch (fun t => t.isEmpty) s = true := by
  induction s with
  | nil => rfl
  | cons c cs ih =>
    have hc : c ≠ '\n' := fun e => h (by simp [e])
    have ih2 := ih (fun e => h (List.mem_cons_of_mem _ e))
    simp [starMatch, hc, ih2]

theorem globMatch_self (s : List Char) (h : '\n' ∉ s) : globMatch s s = true := by
  induction s with
  | nil => rfl
  | cons c cs ih =>
    have hc : c ≠ '\n' := fun e => h (by simp [e])
    have ih2 := ih (fun e => h (List.mem_cons_of_mem _ e))
    simp only [globMatch]
    split
    · simp [starMatch, hc, starMatch_of_true _ _ ih2]
    · split
      · simp [hc, ih2]
      · simp [ih2]


theorem entry_segments (keyPath workspaceName port : String)
    (hid : '\n' ∉ workspaceName.data) (hk : '\n' ∉ keyPath.data) (hp : '\n' ∉ port.data) :
    splitChars '\n' (executeTemplate (brevEntry keyPath workspaceName port)).data =
      [[], "Host ".data ++ workspaceName.data,
       '\t' :: ' ' :: ('H' :: "ostname".data) ++ ' ' :: "0.0.0.0".data,
       '\t' :: ' ' :: ('I' :: "dentityFile".data) ++ ' ' :: keyPath.data,
       '\t' :: ' ' :: ('U' :: "ser".data) ++ ' ' :: "brev".data,
       '\t' :: ' ' :: ('P' :: "ort".data) ++ ' ' :: port.data, []] := by
  have hdata : (executeTemplate (brevEntry keyPath workspaceName port)).data =
      [] ++ '\n' :: (("Host ".data ++ workspaceName.data) ++ '\n' ::
        (('\t' :: ' ' :: ('H' :: "ostname".data) ++ ' ' :: "0.0.0.0".data) ++ '\n' ::
        (('\t' :: ' ' :: ('I' :: "dentityFile".data) ++ ' ' :: keyPath.data) ++ '\n' ::
        (('\t' :: ' ' :: ('U' :: "ser".data) ++ ' ' :: "brev".data) ++ '\n' ::
        (('\t' :: ' ' :: ('P' :: "ort".data) ++ ' ' :: port.data) ++ '\n' :: []))))) := by
    simp [executeTemplate, brevEntry, String.data_append, List.append_assoc]
  rw [hdata]
  rw [splitChars_append_sep _ _ _ (by simp),
    splitChars_append_sep _ _ _ (by simp [hid]),
    splitChars_append_sep _ _ _ (by decide),
    splitChars_append_sep _ _ _ (by simp [hk]),
    splitChars_append_sep _ _ _ (by decide),
    splitChars_append_sep _ _ _ (by simp [hp])]
  rfl

theorem Decode_entry (keyPath workspaceName port : String)
    (hne : workspaceName ≠ "")
    (hid : ∀ c ∈ workspaceName.data, c ≠ ' ' ∧ c ≠ '\t' ∧ c ≠ '\n' ∧ c ≠ '#')
    (hbang : workspaceName.data.head? ≠ some '!')
    (heq : workspaceName.data.head? ≠ some '=')
    (hk : ∀ c ∈ keyPath.data, c ≠ '\n' ∧ c ≠ '#')
    (hk0 : ∀ c, keyPath.data.head? = some c → isSpace c = false ∧ c ≠ '=')
    (hp : ∀ c ∈ port.data, c ≠ '\n' ∧ c ≠ '#')
    (hp0 : ∀ c, port.data.head? = some c → isSpace c = false ∧ c ≠ '=') :
    Decode (executeTemplate (brevEntry keyPath workspaceName port)) =
      .ok { Hosts := [blankImplicitHost, entryHost keyPath workspaceName port] } := by
  have hidn : '\n' ∉ workspaceName.data := fun h => (hid _ h).2.2.1 rfl
  have hidh : '#' ∉ workspaceName.data := fun h => (hid _ h).2.2.2 rfl
  have hids : ' ' ∉ workspaceName.data := fun h => (hid _ h).1 rfl
  have hid0 : ∀ c, workspaceName.data.head? = some c → isSpace c = false ∧ c ≠ '=' := by
    intro c hc
    have hmem : c ∈ workspaceName.data := List.mem_of_mem_head? hc
    have := hid c hmem
    refine ⟨by simp [isSpace, this.1, this.2.1], fun e => heq (e ▸ hc)⟩
  have hkn : '\n' ∉ keyPath.data := fun h => (hk _ h).1 rfl
  have hkh : '#' ∉ keyPath.data := fun h => (hk _ h).2 rfl
  have hpn : '\n' ∉ port.data := fun h => (hp _ h).1 rfl
  have hph : '#' ∉ port.data := fun h => (hp _ h).2 rfl
  have l1 := lexLine_Host workspaceName.data hidh hid0
  have l2 := lexLine_directive 'H' "ostname".data "0.0.0.0".data (by decide) (by decide)
    (by decide) (by decide)
  have l3 := lexLine_directive 'I' "dentityFile".data keyPath.data (by decide) (by decide)
    hkh hk0
  have l4 := lexLine_directive 'U' "ser".data "brev".data (by decide) (by decide)
    (by decide) (by decide)
  have l5 := lexLine_directive 'P' "ort".data port.data (by decide) (by decide) hph hp0
  have hpat := parsePatterns_single workspaceName hids hne hbang
  have hblank : lexLine [] = .blank := rfl
  unfold Decode
  rw [entry_segments keyPath workspaceName port hidn hkn hpn]
  simp only [parseSegments, parseLine, hblank, l1, l2, l3, l4, l5, List.isEmpty_cons,
    Bool.false_and, Bool.false_eq_true, if_false]
  simp [toLower, hpat, blankImplicitHost, entryHost, dropSpaces]


/-- C16 as amended (renderer and detector agree). For an identifier that is not
empty, has no whitespace and no `#` and does not start with `!` or `=`, any
port, and a key path without newline and `#` that does not start with a blank or
`=`: the entry that `appendBrevEntry` writes into an empty file is read back as
the implicit block followed by one block with the identifier as its only
pattern; that block is managed, `GetBrevHostValues` reports exactly the
identifier, its `Port` is the decimal numeral of the port, and `GetBrevPorts`
returns that numeral when the identifier is queried. -/
theorem entry_read_back (keyPath workspaceName : String) (port : Nat) :
    workspaceName ≠ "" →
    (∀ c ∈ workspaceName.data, c ≠ ' ' ∧ c ≠ '\t' ∧ c ≠ '\n' ∧ c ≠ '\r' ∧ c ≠ '#') →
    workspaceName.data.head? ≠ some '!' →
    workspaceName.data.head? ≠ some '=' →
    (∀ c ∈ keyPath.data, c ≠ '\n' ∧ c ≠ '#') →
    (∀ c, keyPath.data.head? = some c → c ≠ ' ' ∧ c ≠ '\t' ∧ c ≠ '=') →
    (GetSSHConfig (appendBrevEntry keyPath { sshConfig := some "", privateKeyFile := none }
        { offset := 0 } workspaceName (Sprint port)).1).2 =
      .ok { Hosts := [blankImplicitHost, entryHost keyPath workspaceName (Sprint port)] } ∧
    checkIfBrevHost keyPath (entryHost keyPath workspaceName (Sprint port)) = true ∧
    GetBrevHostValues keyPath
        { Hosts := [blankImplicitHost, entryHost keyPath workspaceName (Sprint port)] } =
      .ok [workspaceName] ∧
    Config.Get { Hosts := [blankImplicitHost, entryHost keyPath workspaceName (Sprint port)] }
        workspaceName "Port" = .ok (Sprint port) ∧
    GetBrevPorts { Hosts := [blankImplicitHost, entryHost keyPath workspaceName (Sprint port)] }
        [workspaceName] = .ok [Sprint port] := by
  intro hne hid hbang heq hk hk0
  have hidn : '\n' ∉ workspaceName.data := fun h => (hid _ h).2.2.1 rfl
  have hids : ' ' ∉ workspaceName.data := fun h => (hid _ h).1 rfl
  have hdec := Decode_entry keyPath workspaceName (Sprint port) hne
    (fun c hc => ⟨(hid c hc).1, (hid c hc).2.1, (hid c hc).2.2.1, (hid c hc).2.2.2.2⟩)
    hbang heq hk
    (fun c hc => ⟨by simp [isSpace, (hk0 c hc).1, (hk0 c hc).2.1], (hk0 c hc).2.2⟩)
    (fun c hc => ⟨(digit_plain c (Sprint_digits port c hc)).1,
      (digit_plain c (Sprint_digits port c hc)).2.1⟩)
    (fun c hc => ⟨(digit_plain c (Sprint_digits port c (List.mem_of_mem_head? hc))).2.2.2,
      (digit_plain c (Sprint_digits port c (List.mem_of_mem_head? hc))).2.2.1⟩)
  have hget : Config.Get
      { Hosts := [blankImplicitHost, entryHost keyPath workspaceName (Sprint port)] }
      workspaceName "Port" = .ok (Sprint port) := by
    have hm1 : blankImplicitHost.Matches workspaceName = true := by
      simp [Host.Matches, blankImplicitHost, matchesLoop, Pattern.regexMatch, globMatch,
        starMatch_all _ hidn]
    have hm2 : (entryHost keyPath workspaceName (Sprint port)).Matches workspaceName = true := by
      simp [Host.Matches, entryHost, matchesLoop, Pattern.regexMatch, globMatch_self _ hidn]
    have hn1 : getInNodes (toLower "Port") blankImplicitHost.Nodes = none := rfl
    have hn2 : getInNodes (toLower "Port")
        (entryHost keyPath workspaceName (Sprint port)).Nodes = some (.ok (Sprint port)) := by
      simp only [entryHost, getInNodes]
      rw [if_neg (by decide), if_neg (by decide), if_neg (by decide), if_neg (by decide),
        if_neg (by decide), if_neg (by decide), if_neg (by decide), if_pos (by decide)]
    simp only [Config.Get, getInHosts, hm1, hm2, hn1, hn2, if_true]
  refine ⟨?_, ?_, ?_, hget, ?_⟩
  · have hfile : (appendBrevEntry keyPath { sshConfig := some "", privateKeyFile := none }
        { offset := 0 } workspaceName (Sprint port)).1.sshConfig =
        some (executeTemplate (brevEntry keyPath workspaceName (Sprint port))) := by
      simp [appendBrevEntry, File.Write]
    simp only [GetSSHConfig, GetOrCreateSSHConfigFile, hfile, Option.getD_some]
    exact hdec
  · simp [checkIfBrevHost, entryHost]
  · have h1 : hostnameFromString blankImplicitHost.String = .ok "\n" := by decide!
    have h2 : checkIfBrevHost keyPath blankImplicitHost = false := by
      simp [checkIfBrevHost, blankImplicitHost]
    have h3 : hostnameFromString (entryHost keyPath workspaceName (Sprint port)).String =
        .ok workspaceName :=
      hostnameFromString_regular _ ⟨workspaceName, false⟩ [] rfl rfl rfl rfl hids hidn
    have h4 : checkIfBrevHost keyPath (entryHost keyPath workspaceName (Sprint port)) = true := by
      simp [checkIfBrevHost, entryHost]
    simp [GetBrevHostValues, GetBrevHostValuesLoop, h1, h2, h3, h4]
  · simp [GetBrevPorts, hget]

/-- Witness for C16: the theorem at the identifier `new-ws` and port 2223. -/
theorem entry_read_back_witness :
    ("new-ws" : String) ≠ "" ∧
    (GetSSHConfig (appendBrevEntry exampleKeyPath { sshConfig := some "", privateKeyFile := none }
        { offset := 0 } "new-ws" (Sprint 2223)).1).2 =
      .ok { Hosts := [blankImplicitHost, entryHost exampleKeyPath "new-ws" (Sprint 2223)] } ∧
    checkIfBrevHost exampleKeyPath (entryHost exampleKeyPath "new-ws" (Sprint 2223)) = true ∧
    GetBrevHostValues exampleKeyPath
        { Hosts := [blankImplicitHost, entryHost exampleKeyPath "new-ws" (Sprint 2223)] } =
      .ok ["new-ws"] ∧
    Config.Get { Hosts := [blankImplicitHost, entryHost exampleKeyPath "new-ws" (Sprint 2223)] }
        "new-ws" "Port" = .ok (Sprint 2223) ∧
    GetBrevPorts { Hosts := [blankImplicitHost, entryHost exampleKeyPath "new-ws" (Sprint 2223)] }
        ["new-ws"] = .ok [Sprint 2223] :=
  ⟨by decide, entry_read_back exampleKeyPath "new-ws" 2223 (by decide) (by decide) (by decide)
    (by decide) (by decide) (by decide)⟩

/-- C16, the claim as stated fails. The identifier `!ws` has no whitespace, yet
the entry written for it is read back as a block with the negated pattern `ws`:
`GetBrevHostValues` reports `ws`, not `!ws`, and querying `!ws` finds no port.
Likewise the identifiers `a#b`, `=a` and the empty one are reported as `a`, `=`
and the empty string, and their port is not found. -/
theorem entry_negated_identifier_not_reported :
    (GetSSHConfig (appendBrevEntry exampleKeyPath { sshConfig := some "", privateKeyFile := none }
        { offset := 0 } "!ws" (Sprint 2222)).1).2 =
      .ok { Hosts := [blankImplicitHost,
        { entryHost exampleKeyPath "ws" "2222" with Patterns := [{ str := "ws", not := true }] }] } ∧
    GetBrevHostValues exampleKeyPath
        { Hosts := [blankImplicitHost,
          { entryHost exampleKeyPath "ws" "2222" with
            Patterns := [{ str := "ws", not := true }] }] } = .ok ["ws"] ∧
    GetBrevPorts
        { Hosts := [blankImplicitHost,
          { entryHost exampleKeyPath "ws" "2222" with
            Patterns := [{ str := "ws", not := true }] }] } ["!ws"] = .ok [""] ∧
    ((Decode (executeTemplate (brevEntry exampleKeyPath "a#b" "2222"))).bind fun cfg =>
        (GetBrevHostValues exampleKeyPath cfg).bind fun names =>
          (GetBrevPorts cfg ["a#b"]).map fun ports => (names, ports)) = .ok (["a"], [""]) ∧
    ((Decode (executeTemplate (brevEntry exampleKeyPath "=a" "2222"))).bind fun cfg =>
        (GetBrevHostValues exampleKeyPath cfg).bind fun names =>
          (GetBrevPorts cfg ["=a"]).map fun ports => (names, ports)) = .ok (["="], [""]) ∧
    ((Decode (executeTemplate (brevEntry exampleKeyPath "" "2222"))).bind fun cfg =>
        (GetBrevHostValues exampleKeyPath cfg).bind fun names =>
          (GetBrevPorts cfg [""]).map fun ports => (names, ports)) = .ok ([""], [""]) := by
  refine ⟨by decide!, by decide!, by decide!, by decide!, by decide!, by decide!⟩

/-! ## Which identifiers get an entry -/

theorem mapInsert_keys (m : List (String × String)) (key value k : String) :
    k ∈ (mapInsert m key value).map Prod.fst ↔ k ∈ m.map Prod.fst ∨ k = key := by
  unfold mapInsert
  split
  · rename_i hany
    obtain ⟨kv, hkv, hk⟩ := List.any_eq_true.mp hany
    have hkey : key ∈ m.map Prod.fst := by
      have : kv.1 = key := by simpa using hk
      exact this ▸ List.mem_map_of_mem Prod.fst hkv
    constructor
    · intro h
      obtain ⟨x, hx, rfl⟩ := List.mem_map.mp h
      obtain ⟨y, hy, rfl⟩ := List.mem_map.mp hx
      by_cases hyk : (y.1 == key) = true
      · right; simp [hyk]
      · left; simp only [hyk]; exact List.mem_map_of_mem Prod.fst hy
    · rintro (h | rfl)
      · obtain ⟨y, hy, rfl⟩ := List.mem_map.mp h
        refine List.mem_map.mpr ⟨_, List.mem_map_of_mem _ hy, ?_⟩
        by_cases hyk : (y.1 == key) = true
        · have hy1 : y.1 = key := by simpa using hyk
          simp [hy1]
        · simp [hyk]
      · obtain ⟨y, hy, hyk⟩ := List.mem_map.mp hkey
        refine List.mem_map.mpr ⟨_, List.mem_map_of_mem _ hy, ?_⟩
        simp [hyk]
  · simp

/-- Whenever the loop of `CreateBrevSSHConfigEntries` returns a mapping, its keys
are the keys it started with and the active identifiers that are not in
`brevHostValues`. -/
theorem createLoop_keys (keyPath : String) (brevHostValues : List String)
    (active : List String) :
    ∀ (fs : FS) (m : List (String × String)) (fs2 : FS) (m2 : List (String × String)),
      createLoop keyPath brevHostValues active fs m = (fs2, .ok m2) →
      ∀ k, k ∈ m2.map Prod.fst ↔
        k ∈ m.map Prod.fst ∨ (k ∈ active ∧ k ∉ brevHostValues) := by
  induction active with
  | nil =>
    intro fs m fs2 m2 h k
    simp only [createLoop, Prod.mk.injEq, Except.ok.injEq] at h
    obtain ⟨_, rfl⟩ := h
    simp
  | cons w rest ih =>
    intro fs m fs2 m2 h k
    simp only [createLoop] at h
    split at h
    · rename_i hin
      have hw : w ∈ brevHostValues := by simpa using hin
      rw [ih fs m fs2 m2 h k]
      constructor
      · rintro (h1 | ⟨h1, h2⟩)
        · exact Or.inl h1
        · exact Or.inr ⟨List.mem_cons_of_mem _ h1, h2⟩
      · rintro (h1 | ⟨h1, h2⟩)
        · exact Or.inl h1
        · rcases List.mem_cons.mp h1 with rfl | h1
          · exact absurd hw h2
          · exact Or.inr ⟨h1, h2⟩
    · rename_i hin
      have hw : w ∉ brevHostValues := by simpa using hin
      split at h
      · simp at h
      · split at h
        · simp at h
        · split at h
          · simp at h
          · rw [ih _ _ fs2 m2 h k, mapInsert_keys]
            constructor
            · rintro ((h1 | rfl) | ⟨h1, h2⟩)
              · exact Or.inl h1
              · exact Or.inr ⟨List.mem_cons_self _ _, hw⟩
              · exact Or.inr ⟨List.mem_cons_of_mem _ h1, h2⟩
            · rintro (h1 | ⟨h1, h2⟩)
              · exact Or.inl (Or.inl h1)
              · rcases List.mem_cons.mp h1 with rfl | h1
                · exact Or.inl (Or.inr rfl)
                · exact Or.inr ⟨h1, h2⟩


/-- C12 at two failing inputs. The file starts with a managed block `Host x` and
the active identifiers are `x` and `y`: the call panics in `hostnameFromString`
on the empty text of the implicit block, so `y` gets neither a block nor a
mapping entry and the file is as before. The file holds one blank line and the
active identifiers are `a` and `b`: both get a mapping entry, but the entry for
`b` is written at offset 0 over the entry for `a`, and the file afterwards is
exactly the entry for `b`. -/
theorem CreateBrevSSHConfigEntries_missing_not_created :
    Decode managedFirstText =
      .ok { Hosts := [emptyImplicitHost, entryHost exampleKeyPath "x" "2222"] } ∧
    CreateBrevSSHConfigEntries exampleKeyPath
        { sshConfig := some managedFirstText, privateKeyFile := none }
        { Hosts := [emptyImplicitHost, entryHost exampleKeyPath "x" "2222"] } ["x", "y"] =
      ({ sshConfig := some managedFirstText, privateKeyFile := none },
       .error (.panic "index out of range [1]")) ∧
    CreateBrevSSHConfigEntries exampleKeyPath blankConfigFS blankConfig ["a", "b"] =
      ({ sshConfig := some (executeTemplate (brevEntry exampleKeyPath "b" "2222")),
         privateKeyFile := none },
       .ok [("a", "2222"), ("b", "2222")]) := by
  refine ⟨by decide!, by decide!, by decide!⟩

/-! ## Pruning and rendering: what the output holds -/

theorem join_map_mem_split {α : Type} (f : α → String) (l : List α) (x : α) (h : x ∈ l) :
    ∃ pre post, String.join (l.map f) = pre ++ f x ++ post := by
  induction l with
  | nil => simp at h
  | cons a l ih =>
    rcases List.mem_cons.mp h with rfl | h
    · exact ⟨"", String.join (l.map f), by simp [join_cons]⟩
    · obtain ⟨pre, post, hp⟩ := ih h
      exact ⟨f a ++ pre, post, by simp [join_cons, hp, String.append_assoc]⟩

/-- The text of a block holds each of its directives as key, separator, value. -/
theorem Host_String_directive (h : Host) (key value comment : String) (hasEquals : Bool)
    (n : Nat) (hmem : Node.KV key value comment hasEquals n ∈ h.Nodes) :
    ∃ pre post, h.String = pre ++ (key ++ (if hasEquals then " = " else " ") ++ value) ++ post := by
  obtain ⟨pre, post, hp⟩ := join_map_mem_split (fun n => n.String ++ "\n") h.Nodes _ hmem
  obtain ⟨hdr, hh⟩ : ∃ hdr, h.String =
      hdr ++ String.join (h.Nodes.map fun n => n.String ++ "\n") := ⟨_, rfl⟩
  rw [hh, hp]
  by_cases hc : comment = ""
  · refine ⟨hdr ++ pre ++ spaces n, "\n" ++ post, ?_⟩
    simp [Node.String, hc, String.append_assoc]
  · refine ⟨hdr ++ pre ++ spaces n, " #" ++ comment ++ "\n" ++ post, ?_⟩
    simp [Node.String, hc, String.append_assoc]

theorem prune_holds_kept (keyPath : String) (cfg : Config) (active : List String) (h : Host)
    (hmem : h ∈ cfg.Hosts) (hk : keeps keyPath active h = true) :
    ∃ pre post, PruneInactiveWorkspaces keyPath cfg active = pre ++ h.String ++ post := by
  rw [prune_eq_join]
  exact join_map_mem_split Host.String _ h (List.mem_filter.mpr ⟨hmem, hk⟩)

theorem prune_holds_directive (keyPath : String) (cfg : Config) (active : List String)
    (h : Host) (hmem : h ∈ cfg.Hosts) (hk : keeps keyPath active h = true)
    (key value comment : String) (hasEquals : Bool) (n : Nat)
    (hnode : Node.KV key value comment hasEquals n ∈ h.Nodes) :
    ∃ pre post, PruneInactiveWorkspaces keyPath cfg active =
      pre ++ (key ++ (if hasEquals then " = " else " ") ++ value) ++ post := by
  obtain ⟨pre, post, hp⟩ := prune_holds_kept keyPath cfg active h hmem hk
  obtain ⟨pre2, post2, hd⟩ := Host_String_directive h key value comment hasEquals n hnode
  exact ⟨pre ++ pre2, post2 ++ post, by rw [hp, hd]; simp only [String.append_assoc]⟩

/-- C5 as amended (pruning correctness). The output of `PruneInactiveWorkspaces`
is the concatenation of the texts of the blocks selected by a test `keep`, in
input order; `keep` accepts every foreign block, and accepts a managed block if
and only if for some active identifier at least one of its patterns matches the
identifier and none of its negated patterns matches it. A block that is kept
contributes its text as the library renders it, `host.String()`, which is a
piece of the output; in it the `Port` directive of the block is printed with its
value. A block that is not kept contributes nothing. -/
theorem PruneInactiveWorkspaces_keeps_matching (keyPath : String) (cfg : Config)
    (active : List String) :
    ∃ keep : Host → Bool,
      PruneInactiveWorkspaces keyPath cfg active =
        String.join ((cfg.Hosts.filter keep).map Host.String) ∧
      (∀ h, checkIfBrevHost keyPath h = false → keep h = true) ∧
      (∀ h, checkIfBrevHost keyPath h = true →
        (keep h = true ↔
          ∃ name ∈ active,
            (∃ p ∈ h.Patterns, p.regexMatch name = true) ∧
            (∀ p ∈ h.Patterns, p.not = true → p.regexMatch name = false))) ∧
      (∀ h ∈ cfg.Hosts, keep h = true →
        ∃ pre post, PruneInactiveWorkspaces keyPath cfg active = pre ++ h.String ++ post) ∧
      (∀ h ∈ cfg.Hosts, keep h = true →
        ∀ value comment hasEquals n, Node.KV "Port" value comment hasEquals n ∈ h.Nodes →
          ∃ pre post, PruneInactiveWorkspaces keyPath cfg active =
            pre ++ ("Port" ++ (if hasEquals then " = " else " ") ++ value) ++ post) := by
  refine ⟨keeps keyPath active, prune_eq_join keyPath cfg active, ?_, ?_, ?_, ?_⟩
  · intro h hb
    simp [keeps, hb]
  · intro h hb
    simp only [keeps, hb, Bool.not_true, Bool.false_or, List.any_eq_true]
    constructor
    · rintro ⟨name, hn, hm⟩
      exact ⟨name, hn, (Matches_iff h name).mp hm⟩
    · rintro ⟨name, hn, hm⟩
      exact ⟨name, hn, (Matches_iff h name).mpr hm⟩
  · intro h hmem hk
    exact prune_holds_kept keyPath cfg active h hmem hk
  · intro h hmem hk value comment hasEquals n hnode
    exact prune_holds_directive keyPath cfg active h hmem hk "Port" value comment hasEquals n
      hnode

/-- C10 as amended (entry format). For every identifier and port,
`appendBrevEntry` writes to its handle exactly: a newline, the line
`Host <identifier>`, then the lines `Hostname 0.0.0.0`, `IdentityFile <keyPath>`,
`User brev`, `Port <port>` in this order, each indented by a tab and a space and
ended by a newline; the text is a function of the inputs, and the record has the
identifier as its one `Host` value. The written text is read by the library as
one block whose only pattern is the identifier when the identifier is not empty,
has no whitespace and no `#` and does not start with `!` or `=`, and key path
and port have no newline and no `#` and do not start with a blank or `=`. -/
theorem appendBrevEntry_format (keyPath workspaceName port : String) (fs : FS) (file : File) :
    appendBrevEntry keyPath fs file workspaceName port =
      File.Write fs file
        ("\n" ++ ("Host " ++ workspaceName ++ "\n") ++
          ("\t Hostname 0.0.0.0" ++ "\n") ++
          ("\t IdentityFile " ++ keyPath ++ "\n") ++
          ("\t User brev" ++ "\n") ++
          ("\t Port " ++ port ++ "\n")) ∧
    (brevEntry keyPath workspaceName port).Host = workspaceName ∧
    (workspaceName ≠ "" →
      (∀ c ∈ workspaceName.data, c ≠ ' ' ∧ c ≠ '\t' ∧ c ≠ '\n' ∧ c ≠ '\r' ∧ c ≠ '#') →
      workspaceName.data.head? ≠ some '!' →
      workspaceName.data.head? ≠ some '=' →
      (∀ c ∈ keyPath.data, c ≠ '\n' ∧ c ≠ '#') →
      (∀ c, keyPath.data.head? = some c → c ≠ ' ' ∧ c ≠ '\t' ∧ c ≠ '=') →
      (∀ c ∈ port.data, c ≠ '\n' ∧ c ≠ '#') →
      (∀ c, port.data.head? = some c → c ≠ ' ' ∧ c ≠ '\t' ∧ c ≠ '=') →
      Decode (executeTemplate (brevEntry keyPath workspaceName port)) =
        .ok { Hosts := [blankImplicitHost, entryHost keyPath workspaceName port] } ∧
      (entryHost keyPath workspaceName port).Patterns =
        [{ str := workspaceName, not := false }]) := by
  refine ⟨?_, rfl, ?_⟩
  · unfold appendBrevEntry executeTemplate brevEntry
    congr 1
    simp only [String.append_assoc]
    rfl
  · intro hne hid hbang heq hk hk0 hp hp0
    refine ⟨Decode_entry keyPath workspaceName port hne
      (fun c hc => ⟨(hid c hc).1, (hid c hc).2.1, (hid c hc).2.2.1, (hid c hc).2.2.2.2⟩)
      hbang heq hk
      (fun c hc => ⟨by simp [isSpace, (hk0 c hc).1, (hk0 c hc).2.1], (hk0 c hc).2.2⟩)
      hp
      (fun c hc => ⟨by simp [isSpace, (hp0 c hc).1, (hp0 c hc).2.1], (hp0 c hc).2.2⟩), rfl⟩

/-- Witness for C10: the theorem at the identifier `new-ws` and the port 2223. -/
theorem appendBrevEntry_format_witness :
    ("new-ws" : String) ≠ "" ∧
    Decode (executeTemplate (brevEntry exampleKeyPath "new-ws" "2223")) =
      .ok { Hosts := [blankImplicitHost, entryHost exampleKeyPath "new-ws" "2223"] } ∧
    (entryHost exampleKeyPath "new-ws" "2223").Patterns = [{ str := "new-ws", not := false }] :=
  ⟨by decide,
    (appendBrevEntry_format exampleKeyPath "new-ws" "2223" freshFS { offset := 0 }).2.2
      (by decide) (by decide) (by decide) (by decide) (by decide) (by decide) (by decide)
      (by decide)⟩

/-- C10, the claim as stated fails: the entry written for the identifier `a b` is
read as a block with the two patterns `a` and `b`, the entry for `a#b` as a
block with the pattern `a`, and the entries for `#x` and for the empty
identifier as blocks without a pattern. -/
theorem appendBrevEntry_not_single_pattern :
    ((Decode (executeTemplate (brevEntry exampleKeyPath "a b" "2222"))).map fun c =>
        c.Hosts.map fun h => h.Patterns.map Pattern.str) = .ok [["*"], ["a", "b"]] ∧
    ((Decode (executeTemplate (brevEntry exampleKeyPath "a#b" "2222"))).map fun c =>
        c.Hosts.map fun h => h.Patterns.map Pattern.str) = .ok [["*"], ["a"]] ∧
    ((Decode (executeTemplate (brevEntry exampleKeyPath "#x" "2222"))).map fun c =>
        c.Hosts.map fun h => h.Patterns.map Pattern.str) = .ok [["*"], []] ∧
    ((Decode (executeTemplate (brevEntry exampleKeyPath "" "2222"))).map fun c =>
        c.Hosts.map fun h => h.Patterns.map Pattern.str) = .ok [["*"], []] := by
  refine ⟨by decide!, by decide!, by decide!, by decide!⟩


end BrevSSH
